import Mathlib

/-!
Verification of the extraction-and-versioning pipeline of this repository
(`backend/`): the content-addressed version tracker
(`versioning/schema.py`, `versioning/cameo_tracker.py`,
`versioning/simulink_tracker.py`, `version_storage.py`), the Cameo
requirement extractor (`cameo_integration/cameo_analyzer.py`), the batch
merger (`cameo_integration/batch_cameo_processor.py`), the hierarchy
inferencer (`cameo_integration/extract_hierarchy.py`) and the Simulink
analyzers (`simulink_analyzer.py`).

Each definition is a shallow embedding of one Python function, keeping the
source's names where Lean allows.  Python dicts are modelled as association
lists in insertion order with the dict's insert-overwrite semantics
(`dictSet`); JSON values as the inductive `Json` (numbers restricted to
integers, which is all these documents contain).
-/

/-- A JSON value as produced by `json.load` / consumed by `json.dumps`. -/
inductive Json where
  | null : Json
  | bool (b : Bool) : Json
  | num (n : Int) : Json
  | str (s : String) : Json
  | arr (elems : List Json) : Json
  | obj (entries : List (String × Json)) : Json

/-- Python dict lookup (`d[k]` / `d.get(k)`): first entry with the key.
Association lists built with `dictSet` keep keys unique, as dicts do. -/
def alookup {β : Type} : List (String × β) → String → Option β
  | [], _ => none
  | (k, v) :: rest, key => if k = key then some v else alookup rest key

/-- Python dict assignment `d[k] = v`: overwrite in place when the key
exists (position kept), append at the end otherwise. -/
def dictSet {β : Type} : List (String × β) → String → β → List (String × β)
  | [], key, v => [(key, v)]
  | (k, w) :: rest, key, v =>
    if k = key then (k, v) :: rest else (k, w) :: dictSet rest key v

/-- In-place update of the value stored at a key, when present
(`d[k].field = ...` on an existing entry). -/
def updateVal {β : Type} : List (String × β) → String → (β → β) → List (String × β)
  | [], _, _ => []
  | (k, w) :: rest, key, f =>
    if k = key then (k, f w) :: rest else (k, w) :: updateVal rest key f

theorem alookup_dictSet {β : Type} (l : List (String × β)) (k k' : String) (v : β) :
    alookup (dictSet l k v) k' = if k = k' then some v else alookup l k' := by
  induction l with
  | nil => by_cases h : k = k' <;> simp [dictSet, alookup, h]
  | cons hd tl ih =>
    obtain ⟨a, b⟩ := hd
    by_cases hak : a = k
    · subst hak
      by_cases h : a = k' <;> simp [dictSet, alookup, h]
    · by_cases h : a = k'
      · subst h
        have : ¬ k = a := fun he => hak he.symm
        simp [dictSet, alookup, hak, this]
      · simp [dictSet, alookup, hak, h, ih]

theorem dictSet_map_fst {β : Type} (l : List (String × β)) (k : String) (v : β) :
    (dictSet l k v).map Prod.fst =
      if k ∈ l.map Prod.fst then l.map Prod.fst else l.map Prod.fst ++ [k] := by
  induction l with
  | nil => simp [dictSet]
  | cons hd tl ih =>
    obtain ⟨a, b⟩ := hd
    by_cases hak : a = k
    · subst hak; simp [dictSet]
    · have : ¬ k = a := fun he => hak he.symm
      by_cases hmem : k ∈ tl.map Prod.fst <;>
        simp [dictSet, hak, this, hmem, ih]

theorem updateVal_map_fst {β : Type} (l : List (String × β)) (k : String) (f : β → β) :
    (updateVal l k f).map Prod.fst = l.map Prod.fst := by
  induction l with
  | nil => rfl
  | cons hd tl ih =>
    obtain ⟨a, b⟩ := hd
    by_cases hak : a = k <;> simp [updateVal, hak, ih]

theorem alookup_updateVal {β : Type} (l : List (String × β)) (k k' : String) (f : β → β) :
    alookup (updateVal l k f) k' =
      if k = k' then (alookup l k').map f else alookup l k' := by
  induction l with
  | nil => by_cases h : k = k' <;> simp [updateVal, alookup, h]
  | cons hd tl ih =>
    obtain ⟨a, b⟩ := hd
    by_cases hak : a = k
    · subst hak
      by_cases h : a = k' <;> simp [updateVal, alookup, h]
    · by_cases h : a = k'
      · subst h
        have : ¬ k = a := fun he => hak he.symm
        simp [updateVal, alookup, hak, this]
      · simp [updateVal, alookup, hak, h, ih]

theorem updateVal_id {β : Type} (l : List (String × β)) (k : String) (f : β → β)
    (h : ∀ v, alookup l k = some v → f v = v) : updateVal l k f = l := by
  induction l with
  | nil => rfl
  | cons hd tl ih =>
    obtain ⟨a, b⟩ := hd
    by_cases hak : a = k
    · subst hak
      have : f b = b := h b (by simp [alookup])
      simp [updateVal, this]
    · have : ∀ v, alookup tl k = some v → f v = v := by
        intro v hv; exact h v (by simp [alookup, hak, hv])
      simp [updateVal, hak, ih this]

theorem alookup_eq_none {β : Type} (l : List (String × β)) (k : String)
    (h : k ∉ l.map Prod.fst) : alookup l k = none := by
  induction l with
  | nil => rfl
  | cons hd tl ih =>
    obtain ⟨a, b⟩ := hd
    simp only [List.map_cons, List.mem_cons] at h
    push_neg at h
    have : ¬ a = k := fun he => h.1 he.symm
    simp [alookup, this, ih h.2]

theorem alookup_isSome {β : Type} (l : List (String × β)) (k : String)
    (h : k ∈ l.map Prod.fst) : ∃ v, alookup l k = some v := by
  induction l with
  | nil => simp at h
  | cons hd tl ih =>
    obtain ⟨a, b⟩ := hd
    by_cases hak : a = k
    · exact ⟨b, by simp [alookup, hak]⟩
    · have : k ∈ tl.map Prod.fst := by
        simp only [List.map_cons, List.mem_cons] at h
        rcases h with h | h
        · exact absurd h.symm hak
        · exact h
      obtain ⟨v, hv⟩ := ih this
      exact ⟨v, by simp [alookup, hak, hv]⟩

/-! ## Canonical serialization (`json.dumps(..., sort_keys=True)`)

`versioning/schema.py` hashes `json.dumps(artifact_data, sort_keys=True)`
encoded as UTF-8.  `sortKeysRec` performs the recursive key sort that
`sort_keys=True` applies at every object, `jsonSerialize` renders with
`json.dumps`'s default separators (", " and ": ") and `ensure_ascii=True`
escaping, and `strUtf8` is the UTF-8 encoding. -/

/-- Order on object entries by key; Python's `sorted` on `str` compares by
code points, as Lean's `String` order does. -/
def keyLe (p q : String × Json) : Prop := p.1 ≤ q.1

instance : DecidableRel keyLe := fun p q => inferInstanceAs (Decidable (p.1 ≤ q.1))

instance : IsTotal (String × Json) keyLe := ⟨fun a b => le_total a.1 b.1⟩

instance : IsTrans (String × Json) keyLe := ⟨fun _ _ _ h h' => le_trans h h'⟩

mutual

/-- Recursively sort every object's entries by key: the canonicalization
`sort_keys=True` applies during `json.dumps`. -/
def sortKeysRec : Json → Json
  | .obj l => .obj (List.insertionSort keyLe (sortEntriesVals l))
  | .arr l => .arr (sortListVals l)
  | x => x

def sortListVals : List Json → List Json
  | [] => []
  | x :: xs => sortKeysRec x :: sortListVals xs

def sortEntriesVals : List (String × Json) → List (String × Json)
  | [] => []
  | (k, v) :: xs => (k, sortKeysRec v) :: sortEntriesVals xs

end

def hexDigit (n : Nat) : Char :=
  if n < 10 then Char.ofNat (48 + n) else Char.ofNat (87 + n)

def hex4 (n : Nat) : List Char :=
  [hexDigit (n / 4096 % 16), hexDigit (n / 256 % 16), hexDigit (n / 16 % 16), hexDigit (n % 16)]

/-- `json.dumps` character escaping with `ensure_ascii=True` (the default):
printable ASCII other than the quote and the backslash stays raw, the
shorthand escapes cover backspace, tab, newline, formfeed and return, and
everything else becomes lowercase `\uXXXX` (surrogate pairs past the BMP). -/
def escapeChar (c : Char) : List Char :=
  let n := c.toNat
  if c = '"' then ['\\', '"']
  else if c = '\\' then ['\\', '\\']
  else if c = '\n' then ['\\', 'n']
  else if c = '\t' then ['\\', 't']
  else if c = '\r' then ['\\', 'r']
  else if n = 8 then ['\\', 'b']
  else if n = 12 then ['\\', 'f']
  else if 32 ≤ n ∧ n ≤ 126 then [c]
  else if n < 65536 then '\\' :: 'u' :: hex4 n
  else
    ('\\' :: 'u' :: hex4 (55296 + (n - 65536) / 1024)) ++
      ('\\' :: 'u' :: hex4 (56320 + (n - 65536) % 1024))

def jsonDumpString (s : String) : List Char :=
  '"' :: (s.data.flatMap escapeChar) ++ ['"']

def joinComma (pieces : List (List Char)) : List Char :=
  match pieces with
  | [] => []
  | p :: rest => p ++ rest.flatMap (fun q => ',' :: ' ' :: q)

mutual

/-- `json.dumps` rendering with the default separators `", "` / `": "`.
Applied after `sortKeysRec`, so no sorting happens here. -/
def jsonSerialize : Json → List Char
  | .null => "null".data
  | .bool true => "true".data
  | .bool false => "false".data
  | .num n => (toString n).data
  | .str s => jsonDumpString s
  | .arr l => '[' :: joinComma (serializeListVals l) ++ [']']
  | .obj l => '\x7b' :: joinComma (serializeEntryVals l) ++ ['\x7d']

def serializeListVals : List Json → List (List Char)
  | [] => []
  | x :: xs => jsonSerialize x :: serializeListVals xs

def serializeEntryVals : List (String × Json) → List (List Char)
  | [] => []
  | (k, v) :: xs => (jsonDumpString k ++ ':' :: ' ' :: jsonSerialize v) :: serializeEntryVals xs

end

/-- `json.dumps(d, sort_keys=True)`. -/
def dumpsSorted (d : Json) : String :=
  String.mk (jsonSerialize (sortKeysRec d))

/-- UTF-8 encoding of one code point (`str.encode("utf-8")`). -/
def utf8Encode (c : Char) : List Nat :=
  let n := c.toNat
  if n < 128 then [n]
  else if n < 2048 then [192 + n / 64, 128 + n % 64]
  else if n < 65536 then [224 + n / 4096, 128 + n / 64 % 64, 128 + n % 64]
  else [240 + n / 262144, 128 + n / 4096 % 64, 128 + n / 64 % 64, 128 + n % 64]

def strUtf8 (s : String) : List Nat :=
  s.data.flatMap utf8Encode

/-! ## SHA-256 (`hashlib.sha256`), FIPS 180-4, over byte lists. -/

def w32 : Nat := 4294967296

def rotr32 (n x : Nat) : Nat :=
  Nat.lor (x >>> n) ((x <<< (32 - n)) % w32)

def not32 (x : Nat) : Nat := Nat.xor x (w32 - 1)

def shaCh (x y z : Nat) : Nat := Nat.xor (Nat.land x y) (Nat.land (not32 x) z)

def shaMaj (x y z : Nat) : Nat :=
  Nat.xor (Nat.xor (Nat.land x y) (Nat.land x z)) (Nat.land y z)

def bigSigma0 (x : Nat) : Nat := Nat.xor (Nat.xor (rotr32 2 x) (rotr32 13 x)) (rotr32 22 x)

def bigSigma1 (x : Nat) : Nat := Nat.xor (Nat.xor (rotr32 6 x) (rotr32 11 x)) (rotr32 25 x)

def smallSigma0 (x : Nat) : Nat := Nat.xor (Nat.xor (rotr32 7 x) (rotr32 18 x)) (x >>> 3)

def smallSigma1 (x : Nat) : Nat := Nat.xor (Nat.xor (rotr32 17 x) (rotr32 19 x)) (x >>> 10)

def shaK : List Nat :=
  [1116352408, 1899447441, 3049323471, 3921009573, 961987163, 1508970993, 2453635748, 2870763221,
   3624381080, 310598401, 607225278, 1426881987, 1925078388, 2162078206, 2614888103, 3248222580,
   3835390401, 4022224774, 264347078, 604807628, 770255983, 1249150122, 1555081692, 1996064986,
   2554220882, 2821834349, 2952996808, 3210313671, 3336571891, 3584528711, 113926993, 338241895,
   666307205, 773529912, 1294757372, 1396182291, 1695183700, 1986661051, 2177026350, 2456956037,
   2730485921, 2820302411, 3259730800, 3345764771, 3516065817, 3600352804, 4094571909, 275423344,
   430227734, 506948616, 659060556, 883997877, 958139571, 1322822218, 1537002063, 1747873779,
   1955562222, 2024104815, 2227730452, 2361852424, 2428436474, 2756734187, 3204031479, 3329325298]

def shaH0 : List Nat :=
  [1779033703, 3144134277, 1013904242, 2773480762, 1359893119, 2600822924, 528734635, 1541459225]

/-- Big-endian byte rendering, most significant byte first. -/
def bytesBE : Nat → Nat → List Nat
  | 0, _ => []
  | n + 1, v => bytesBE n (v / 256) ++ [v % 256]

/-- Message padding: append `0x80`, zeros to 56 mod 64, then the bit length
as 8 big-endian bytes. -/
def shaPad (msg : List Nat) : List Nat :=
  let l := msg.length
  let k := (119 - l % 64) % 64
  msg ++ 128 :: List.replicate k 0 ++ bytesBE 8 (8 * l)

def toWords (bytes : List Nat) : List Nat :=
  (List.range (bytes.length / 4)).map fun i =>
    (bytes.getD (4 * i) 0) * 16777216 + (bytes.getD (4 * i + 1) 0) * 65536 +
      (bytes.getD (4 * i + 2) 0) * 256 + bytes.getD (4 * i + 3) 0

def chunks16 (ws : List Nat) : List (List Nat) :=
  (List.range (ws.length / 16)).map fun i => ((ws.drop (16 * i)).take 16)

/-- Extend a 16-word block to the 64-word message schedule. -/
def extendW (block : List Nat) : List Nat :=
  (List.range 48).foldl
    (fun w _ =>
      let n := w.length
      w ++ [(w.getD (n - 16) 0 + smallSigma0 (w.getD (n - 15) 0) + w.getD (n - 7) 0 +
        smallSigma1 (w.getD (n - 2) 0)) % w32])
    block

def shaRound (st : List Nat) (kw : Nat × Nat) : List Nat :=
  match st with
  | [a, b, c, d, e, f, g, h] =>
    let t1 := (h + bigSigma1 e + shaCh e f g + kw.1 + kw.2) % w32
    let t2 := (bigSigma0 a + shaMaj a b c) % w32
    [(t1 + t2) % w32, a, b, c, (d + t1) % w32, e, f, g]
  | other => other

def compressBlock (h : List Nat) (block : List Nat) : List Nat :=
  let st := ((shaK.zip (extendW block)).foldl shaRound h)
  (h.zip st).map fun p => (p.1 + p.2) % w32

def hex8 (n : Nat) : List Char :=
  (List.range 8).map fun i => hexDigit (n / 16 ^ (7 - i) % 16)

/-- `hashlib.sha256(bytes).hexdigest()`. -/
def sha256hex (msg : List Nat) : String :=
  String.mk (((chunks16 (toWords (shaPad msg))).foldl compressBlock shaH0).flatMap hex8)

/-! ## `versioning/schema.py` -/

/-- The `ArtifactVersion` dataclass of `versioning/schema.py`. -/
structure ArtifactVersion where
  artifact_id : String
  version_id : String
  artifact_type : String
  tool : String
  timestamp : String
  parent_version_id : Option String := none
  snapshot : Option String := none
deriving DecidableEq

/-- `compute_artifact_hash` (schema.py lines 26-29):
`hashlib.sha256(json.dumps(artifact_data, sort_keys=True).encode("utf-8")).hexdigest()`. -/
def compute_artifact_hash (artifact_data : Json) : String :=
  sha256hex (strUtf8 (dumpsSorted artifact_data))

/-- `create_artifact_version` (schema.py lines 32-44).  `datetime.utcnow()`
is the impure clock read, passed in as `now`. -/
def create_artifact_version (artifact_id : String) (artifact_data : Json)
    (artifact_type tool : String) (parent_version_id : Option String) (now : String) :
    ArtifactVersion :=
  { artifact_id := artifact_id
    version_id := compute_artifact_hash artifact_data
    artifact_type := artifact_type
    tool := tool
    timestamp := now
    parent_version_id := parent_version_id
    snapshot := some (dumpsSorted artifact_data) }

/-! ## Key-order independence of the canonical serialization -/

theorem sortEntriesVals_eq_map (l : List (String × Json)) :
    sortEntriesVals l = l.map (fun p => (p.1, sortKeysRec p.2)) := by
  induction l with
  | nil => rfl
  | cons hd tl ih => obtain ⟨k, v⟩ := hd; simp [sortEntriesVals, ih]

theorem sortEntriesVals_map_fst (l : List (String × Json)) :
    (sortEntriesVals l).map Prod.fst = l.map Prod.fst := by
  rw [sortEntriesVals_eq_map, List.map_map]; rfl

theorem sortEntriesVals_perm (l₁ l₂ : List (String × Json)) (h : List.Perm l₁ l₂) :
    List.Perm (sortEntriesVals l₁) (sortEntriesVals l₂) := by
  rw [sortEntriesVals_eq_map, sortEntriesVals_eq_map]
  exact h.map _

theorem sorted_key_nodup_eq (l₁ l₂ : List (String × Json)) (hperm : List.Perm l₁ l₂)
    (hnd : (l₁.map Prod.fst).Nodup)
    (hs₁ : List.Sorted keyLe l₁) (hs₂ : List.Sorted keyLe l₂) : l₁ = l₂ := by
  haveI : IsAntisymm (String × Json) (fun p q : String × Json => p.1 < q.1) :=
    ⟨fun a b hab hba => absurd (lt_trans hab hba) (lt_irrefl _)⟩
  have hnd₂ : (l₂.map Prod.fst).Nodup := (hperm.map Prod.fst).nodup_iff.mp hnd
  have key_lt : ∀ (l : List (String × Json)), (l.map Prod.fst).Nodup → List.Sorted keyLe l →
      List.Sorted (fun p q : String × Json => p.1 < q.1) l := by
    intro l hn hs
    have hne : List.Pairwise (fun p q : String × Json => p.1 ≠ q.1) l :=
      (List.pairwise_map).mp hn
    exact (hs.and hne).imp (fun h => lt_of_le_of_ne h.1 h.2)
  exact List.eq_of_perm_of_sorted hperm (key_lt l₁ hnd hs₁) (key_lt l₂ hnd₂ hs₂)

theorem sortKeysRec_obj_perm (l₁ l₂ : List (String × Json)) (hperm : List.Perm l₁ l₂)
    (hnd : (l₁.map Prod.fst).Nodup) :
    sortKeysRec (Json.obj l₁) = sortKeysRec (Json.obj l₂) := by
  have p₁ := List.perm_insertionSort keyLe (sortEntriesVals l₁)
  have p₂ := List.perm_insertionSort keyLe (sortEntriesVals l₂)
  have hp : List.Perm (List.insertionSort keyLe (sortEntriesVals l₁))
      (List.insertionSort keyLe (sortEntriesVals l₂)) :=
    (p₁.trans (sortEntriesVals_perm l₁ l₂ hperm)).trans p₂.symm
  have hnd' : ((List.insertionSort keyLe (sortEntriesVals l₁)).map Prod.fst).Nodup := by
    have h0 : ((sortEntriesVals l₁).map Prod.fst).Nodup := by
      rw [sortEntriesVals_map_fst]; exact hnd
    exact ((p₁.map Prod.fst).nodup_iff).mpr h0
  have : List.insertionSort keyLe (sortEntriesVals l₁) =
      List.insertionSort keyLe (sortEntriesVals l₂) :=
    sorted_key_nodup_eq _ _ hp hnd'
      (List.sorted_insertionSort keyLe _) (List.sorted_insertionSort keyLe _)
  simp [sortKeysRec, this]

/-! ## `version_storage.py` and the tracker loop

`VersionStorage.load` checks `file_path.exists()` and returns `{}` when the
file is missing; otherwise it calls `json.load`, which raises on a corrupt
file, and nothing in `load` or the trackers catches that.  The on-disk store
is modelled by `StoreFile`: absent, present-but-corrupt (any raising read:
`json.JSONDecodeError`, `OSError`, a record `ArtifactVersion.from_dict`
rejects), or present with parseable entries.  A raised exception is the
`Except.error` branch. -/

inductive StoreFile where
  | absent : StoreFile
  | corrupt (err : String) : StoreFile
  | valid (entries : List (String × ArtifactVersion)) : StoreFile
deriving DecidableEq

namespace VersionStorage

/-- `VersionStorage.load` (version_storage.py lines 8-14). -/
def load : StoreFile → Except String (List (String × ArtifactVersion))
  | .absent => .ok []
  | .corrupt err => .error err
  | .valid entries => .ok entries

/-- `VersionStorage.save` (version_storage.py lines 16-20): the store file is
rewritten to hold exactly `versions`. -/
def save (versions : List (String × ArtifactVersion)) : StoreFile :=
  .valid versions

end VersionStorage

/-- The per-artifact loop shared by `track_cameo_requirements`
(cameo_tracker.py lines 27-46) and `track_simulink_blocks`
(simulink_tracker.py lines 47-73): returns the run's `current_versions`
(in input order, as a dict built from fresh keys), `new_count` and
`changed_count`. -/
def trackArtifacts (previous : List (String × ArtifactVersion))
    (artifact_type tool now : String) :
    List (String × Json) → List (String × ArtifactVersion) × Nat × Nat
  | [] => ([], 0, 0)
  | (artifact_id, artifact_data) :: rest =>
    let (tail, n, c) := trackArtifacts previous artifact_type tool now rest
    let current_hash := compute_artifact_hash artifact_data
    match alookup previous artifact_id with
    | some prev =>
      if prev.version_id = current_hash then
        ((artifact_id, prev) :: tail, n, c)
      else
        ((artifact_id,
          create_artifact_version artifact_id artifact_data artifact_type tool
            (some prev.version_id) now) :: tail, n, c + 1)
    | none =>
      ((artifact_id,
        create_artifact_version artifact_id artifact_data artifact_type tool none now) :: tail,
       n + 1, c)

/-- One tracker run over an input graph's `nodes` against the persisted
store: `VersionStorage.load`, the loop, then `VersionStorage.save`
(cameo_tracker.py lines 24-48; simulink_tracker.py per model).  Returns the
saved store file plus the loop's results; a raising load aborts the run. -/
def trackRun (nodes : List (String × Json)) (store : StoreFile)
    (artifact_type tool now : String) :
    Except String (StoreFile × List (String × ArtifactVersion) × Nat × Nat) := do
  let previous ← VersionStorage.load store
  let (current_versions, new_count, changed_count) :=
    trackArtifacts previous artifact_type tool now nodes
  pure (VersionStorage.save current_versions, current_versions, new_count, changed_count)

/-- The per-artifact outcome the loop stores: carry the previous record when
the hash is unchanged, otherwise a fresh record (parent = previous id if
any). -/
def trackStep (previous : List (String × ArtifactVersion))
    (artifact_type tool now : String) (p : String × Json) : ArtifactVersion :=
  match alookup previous p.1 with
  | some prev =>
    if prev.version_id = compute_artifact_hash p.2 then prev
    else create_artifact_version p.1 p.2 artifact_type tool (some prev.version_id) now
  | none => create_artifact_version p.1 p.2 artifact_type tool none now

theorem trackArtifacts_eq (previous : List (String × ArtifactVersion))
    (artifact_type tool now : String) (nodes : List (String × Json)) :
    trackArtifacts previous artifact_type tool now nodes =
      (nodes.map (fun p => (p.1, trackStep previous artifact_type tool now p)),
       nodes.countP (fun p => (alookup previous p.1).isNone),
       nodes.countP (fun p =>
         match alookup previous p.1 with
         | some prev => decide (prev.version_id ≠ compute_artifact_hash p.2)
         | none => false)) := by
  induction nodes with
  | nil => rfl
  | cons hd tl ih =>
    obtain ⟨aid, data⟩ := hd
    simp only [trackArtifacts, ih, trackStep]
    cases h : alookup previous aid with
    | none => simp [List.countP_cons, h]
    | some prev =>
      by_cases he : prev.version_id = compute_artifact_hash data <;>
        simp [List.countP_cons, h, he]

theorem trackArtifacts_map_fst (previous : List (String × ArtifactVersion))
    (artifact_type tool now : String) (nodes : List (String × Json)) :
    (trackArtifacts previous artifact_type tool now nodes).1.map Prod.fst =
      nodes.map Prod.fst := by
  rw [trackArtifacts_eq]
  simp [List.map_map]

theorem alookup_map_step {β : Type} (nodes : List (String × Json))
    (f : String × Json → β) (aid : String) (data : Json)
    (hmem : (aid, data) ∈ nodes) (hnd : (nodes.map Prod.fst).Nodup) :
    alookup (nodes.map (fun p => (p.1, f p))) aid = some (f (aid, data)) := by
  induction nodes with
  | nil => simp at hmem
  | cons hd tl ih =>
    obtain ⟨a, b⟩ := hd
    rw [List.map_cons] at hnd
    have hnd' := List.nodup_cons.mp hnd
    rcases List.mem_cons.mp hmem with h | h
    · injection h with h1 h2
      subst h1; subst h2
      simp [alookup]
    · have ha : ¬ a = aid := by
        intro he; subst he
        exact hnd'.1 (List.mem_map.mpr ⟨(a, data), h, rfl⟩)
      simp only [List.map_cons, alookup, if_neg ha]
      exact ih h hnd'.2

theorem trackStep_version_id (previous : List (String × ArtifactVersion))
    (a t now : String) (p : String × Json) :
    (trackStep previous a t now p).version_id = compute_artifact_hash p.2 := by
  unfold trackStep
  cases h : alookup previous p.1 with
  | none => rfl
  | some prev =>
    by_cases he : prev.version_id = compute_artifact_hash p.2
    · simp [he]
    · simp [he]; rfl

theorem trackStep_carry (store : List (String × ArtifactVersion)) (a t now : String)
    (p : String × Json) (v : ArtifactVersion) (hl : alookup store p.1 = some v)
    (hv : v.version_id = compute_artifact_hash p.2) : trackStep store a t now p = v := by
  unfold trackStep
  rw [hl]
  simp [hv]

theorem trackArtifacts_rerun (previous : List (String × ArtifactVersion))
    (a t now now2 : String) (nodes : List (String × Json))
    (hnd : (nodes.map Prod.fst).Nodup) :
    trackArtifacts (trackArtifacts previous a t now nodes).1 a t now2 nodes =
      ((trackArtifacts previous a t now nodes).1, 0, 0) := by
  have hres : (trackArtifacts previous a t now nodes).1 =
      nodes.map (fun p => (p.1, trackStep previous a t now p)) := by
    rw [trackArtifacts_eq]
  have hlook : ∀ p ∈ nodes, alookup (trackArtifacts previous a t now nodes).1 p.1 =
      some (trackStep previous a t now p) := by
    intro p hp
    obtain ⟨x, y⟩ := p
    rw [hres]
    exact alookup_map_step nodes _ x y hp hnd
  rw [trackArtifacts_eq ((trackArtifacts previous a t now nodes).1) a t now2 nodes]
  have h1 : nodes.map
      (fun p => (p.1, trackStep (trackArtifacts previous a t now nodes).1 a t now2 p)) =
      (trackArtifacts previous a t now nodes).1 := by
    have hpt : nodes.map
        (fun p => (p.1, trackStep (trackArtifacts previous a t now nodes).1 a t now2 p)) =
        nodes.map (fun p => (p.1, trackStep previous a t now p)) := by
      apply List.map_congr_left
      intro p hp
      rw [trackStep_carry (trackArtifacts previous a t now nodes).1 a t now2 p
        (trackStep previous a t now p) (hlook p hp) (trackStep_version_id previous a t now p)]
    exact hpt.trans hres.symm
  have h2 : (nodes.countP
      (fun p => (alookup (trackArtifacts previous a t now nodes).1 p.1).isNone)) = 0 := by
    rw [List.countP_eq_zero]
    intro p hp
    rw [hlook p hp]
    simp
  have h3 : (nodes.countP (fun p =>
      match alookup (trackArtifacts previous a t now nodes).1 p.1 with
      | some prev => decide (prev.version_id ≠ compute_artifact_hash p.2)
      | none => false)) = 0 := by
    rw [List.countP_eq_zero]
    intro p hp
    rw [hlook p hp]
    simp [trackStep_version_id previous a t now p]
  rw [h1, h2, h3]

/-- C1: the tracker's change detection against the persisted store
(cameo_tracker.py lines 25-48; simulink_tracker.py lines 44-75).  For an
artifact of the input graph: no prior stored version yields a fresh record
with `parent_version_id = none` (counted new); a prior version with a
different hash yields exactly one fresh record whose parent is the prior
current version's id (counted changed), and it becomes the current version;
an equal hash carries the prior record over unchanged; re-running the loop
on its own output yields the same store and zero new or changed records. -/
theorem cameo_simulink_tracker_change_detection
    (previous : List (String × ArtifactVersion)) (artifact_type tool now now2 : String)
    (nodes : List (String × Json)) (aid : String) (data : Json)
    (hmem : (aid, data) ∈ nodes) (hnd : (nodes.map Prod.fst).Nodup) :
    ((trackArtifacts previous artifact_type tool now nodes).1.map Prod.fst =
      nodes.map Prod.fst) ∧
    (alookup previous aid = none →
      alookup (trackArtifacts previous artifact_type tool now nodes).1 aid =
        some (create_artifact_version aid data artifact_type tool none now)) ∧
    (∀ prev, alookup previous aid = some prev →
      prev.version_id ≠ compute_artifact_hash data →
      alookup (trackArtifacts previous artifact_type tool now nodes).1 aid =
        some (create_artifact_version aid data artifact_type tool
          (some prev.version_id) now)) ∧
    (∀ prev, alookup previous aid = some prev →
      prev.version_id = compute_artifact_hash data →
      alookup (trackArtifacts previous artifact_type tool now nodes).1 aid = some prev) ∧
    ((trackArtifacts previous artifact_type tool now nodes).2.1 =
      nodes.countP (fun p => (alookup previous p.1).isNone)) ∧
    ((trackArtifacts previous artifact_type tool now nodes).2.2 =
      nodes.countP (fun p =>
        match alookup previous p.1 with
        | some prev => decide (prev.version_id ≠ compute_artifact_hash p.2)
        | none => false)) ∧
    (trackArtifacts (trackArtifacts previous artifact_type tool now nodes).1
      artifact_type tool now2 nodes =
      ((trackArtifacts previous artifact_type tool now nodes).1, 0, 0)) := by
  have hres : (trackArtifacts previous artifact_type tool now nodes).1 =
      nodes.map (fun p => (p.1, trackStep previous artifact_type tool now p)) := by
    rw [trackArtifacts_eq]
  have hlook : alookup (trackArtifacts previous artifact_type tool now nodes).1 aid =
      some (trackStep previous artifact_type tool now (aid, data)) := by
    rw [hres]
    exact alookup_map_step nodes _ aid data hmem hnd
  refine ⟨trackArtifacts_map_fst previous artifact_type tool now nodes, ?_, ?_, ?_, ?_, ?_,
    trackArtifacts_rerun previous artifact_type tool now now2 nodes hnd⟩
  · intro h
    rw [hlook]
    unfold trackStep
    rw [h]
  · intro prev hp hne
    rw [hlook]
    unfold trackStep
    rw [hp]
    simp [hne]
  · intro prev hp heq
    rw [hlook]
    unfold trackStep
    rw [hp]
    simp [heq]
  · rw [trackArtifacts_eq]
  · rw [trackArtifacts_eq]

theorem cameo_simulink_tracker_change_detection_witness :
    alookup (trackArtifacts [] "requirement" "cameo" "t0" [("R1", Json.str "v")]).1 "R1" =
      some (create_artifact_version "R1" (Json.str "v") "requirement" "cameo" none "t0") :=
  (cameo_simulink_tracker_change_detection [] "requirement" "cameo" "t0" "t1"
    [("R1", Json.str "v")] "R1" (Json.str "v")
    (List.mem_singleton.mpr rfl) (by decide)).2.1 rfl

/-- C2: `compute_artifact_hash` (schema.py lines 26-29) is key-order
independent — two snapshot dictionaries equal as maps (a permutation of
entries, keys unique as in any dict) yield the identical digest — and
`create_artifact_version`'s `version_id` is that pure function of the
snapshot content. -/
theorem compute_artifact_hash_key_order_independent
    (l₁ l₂ : List (String × Json)) (hperm : List.Perm l₁ l₂)
    (hnd : (l₁.map Prod.fst).Nodup) :
    compute_artifact_hash (Json.obj l₁) = compute_artifact_hash (Json.obj l₂) ∧
    ∀ aid ty tool parent now,
      (create_artifact_version aid (Json.obj l₁) ty tool parent now).version_id =
        compute_artifact_hash (Json.obj l₁) := by
  constructor
  · unfold compute_artifact_hash dumpsSorted
    rw [sortKeysRec_obj_perm l₁ l₂ hperm hnd]
  · intro aid ty tool parent now
    rfl

theorem compute_artifact_hash_key_order_independent_witness :
    compute_artifact_hash (Json.obj [("name", Json.str "R"), ("text", Json.str "body")]) =
      compute_artifact_hash (Json.obj [("text", Json.str "body"), ("name", Json.str "R")]) :=
  (compute_artifact_hash_key_order_independent
    [("name", Json.str "R"), ("text", Json.str "body")]
    [("text", Json.str "body"), ("name", Json.str "R")]
    (List.Perm.swap ("text", Json.str "body") ("name", Json.str "R") [])
    (by decide)).1

theorem trackRun_valid (nodes : List (String × Json))
    (prev : List (String × ArtifactVersion)) (a t now : String) :
    trackRun nodes (StoreFile.valid prev) a t now =
      Except.ok (StoreFile.valid (trackArtifacts prev a t now nodes).1,
        trackArtifacts prev a t now nodes) := by
  rcases htr : trackArtifacts prev a t now nodes with ⟨cur, n, c⟩
  show (match trackArtifacts prev a t now nodes with
    | (cur, n, c) => (Except.ok (StoreFile.valid cur, cur, n, c) :
        Except String (StoreFile × List (String × ArtifactVersion) × Nat × Nat))) = _
  rw [htr]

theorem trackRun_absent (nodes : List (String × Json)) (a t now : String) :
    trackRun nodes StoreFile.absent a t now =
      Except.ok (StoreFile.valid (trackArtifacts [] a t now nodes).1,
        trackArtifacts [] a t now nodes) := by
  rcases htr : trackArtifacts [] a t now nodes with ⟨cur, n, c⟩
  show (match trackArtifacts [] a t now nodes with
    | (cur, n, c) => (Except.ok (StoreFile.valid cur, cur, n, c) :
        Except String (StoreFile × List (String × ArtifactVersion) × Nat × Nat))) = _
  rw [htr]

/-- C4 counterexample: a corrupt (existing) store file makes `json.load`
raise inside `VersionStorage.load`, and neither `load` (version_storage.py
lines 8-14) nor the tracker (cameo_tracker.py line 25) catches it: the run
aborts with the error instead of completing and emitting records, so the
failure does propagate past the tracker boundary. -/
theorem version_store_corrupt_aborts_run :
    trackRun [("R1", Json.str "v")] (StoreFile.corrupt "json decode error")
      "requirement" "cameo" "t0" = Except.error "json decode error" := rfl

/-- C4 amended: only an *absent* store file degrades to empty history
(`if not file_path.exists(): return {}`), in which case every artifact of
the run is treated as new (fresh records with `parent_version_id = none`,
`new_count` = the number of artifacts, `changed_count = 0`); an existing
but unreadable or corrupt store file raises, and the error propagates out
of the tracker, which emits nothing. -/
theorem version_store_load_degradation (nodes : List (String × Json)) (a t now e : String) :
    trackRun nodes StoreFile.absent a t now =
      Except.ok (StoreFile.valid
          (nodes.map (fun p => (p.1, create_artifact_version p.1 p.2 a t none now))),
        nodes.map (fun p => (p.1, create_artifact_version p.1 p.2 a t none now)),
        nodes.length, 0) ∧
    trackRun nodes (StoreFile.corrupt e) a t now = Except.error e := by
  constructor
  · rw [trackRun_absent, trackArtifacts_eq]
    have hstep : (fun p : String × Json => (p.1, trackStep [] a t now p)) =
        fun p : String × Json => (p.1, create_artifact_version p.1 p.2 a t none now) := by
      funext p
      rfl
    have hnew : (nodes.countP (fun p => (alookup ([] : List (String × ArtifactVersion)) p.1).isNone))
        = nodes.length := by
      rw [List.countP_eq_length]
      intro p _
      rfl
    have hch : (nodes.countP (fun p =>
        match alookup ([] : List (String × ArtifactVersion)) p.1 with
        | some prev => decide (prev.version_id ≠ compute_artifact_hash p.2)
        | none => false)) = 0 := by
      rw [List.countP_eq_zero]
      intro p _
      simp [alookup]
    rw [hstep, hnew, hch]
  · rfl

/-- C10: after a tracker run, the persisted store holds exactly the
artifact ids of the current input graph (cameo_tracker.py lines 27-47,
simulink_tracker.py lines 47-75, version_storage.py lines 16-20):
`current_versions` starts empty and receives one record per input artifact,
and `VersionStorage.save` rewrites the file to that dict alone, so a stored
artifact absent from the current run's nodes disappears from the saved
store. -/
theorem tracker_store_prunes_stale_artifacts
    (nodes : List (String × Json)) (previous : List (String × ArtifactVersion))
    (a t now stale : String) (hstale : stale ∉ nodes.map Prod.fst) :
    trackRun nodes (StoreFile.valid previous) a t now =
      Except.ok (StoreFile.valid (trackArtifacts previous a t now nodes).1,
        trackArtifacts previous a t now nodes) ∧
    ((trackArtifacts previous a t now nodes).1.map Prod.fst = nodes.map Prod.fst) ∧
    alookup (trackArtifacts previous a t now nodes).1 stale = none := by
  refine ⟨trackRun_valid nodes previous a t now,
    trackArtifacts_map_fst previous a t now nodes, ?_⟩
  · apply alookup_eq_none
    rw [trackArtifacts_map_fst]
    exact hstale

theorem tracker_store_prunes_stale_artifacts_witness :
    alookup (trackArtifacts
      [("OLD", (⟨"OLD", "h", "requirement", "cameo", "t", none, none⟩ : ArtifactVersion))]
      "requirement" "cameo" "t0" [("R1", Json.null)]).1 "OLD" = none :=
  (tracker_store_prunes_stale_artifacts [("R1", Json.null)]
    [("OLD", (⟨"OLD", "h", "requirement", "cameo", "t", none, none⟩ : ArtifactVersion))]
    "requirement" "cameo" "t0" "OLD" (by decide)).2.2

/-! ## `cameo_integration/extract_hierarchy.py`

The canonical-graph node shape the hierarchy inferencer reads and writes
(the `nodes` values of the exported connectivity documents). -/

structure CNode where
  name : String := ""
  node_type : String := ""
  text : String := ""
  xmi_id : String := ""
  incoming : List String := []
  outgoing : List String := []
  properties : List (String × String) := []
  source_file : String := ""
deriving DecidableEq

/-- Python `req_id.rsplit('.', 1)`: (everything before the last dot,
everything after it).  Callers only use it when the id contains a dot. -/
def rsplitDot (s : String) : String × String :=
  let rcs := s.data.reverse
  let after := rcs.takeWhile (fun c => c ≠ '.')
  match rcs.dropWhile (fun c => c ≠ '.') with
  | _ :: before => (String.mk before.reverse, String.mk after.reverse)
  | [] => (s, "")

/-- One iteration of the loop of `extract_hierarchy_from_ids`
(extract_hierarchy.py lines 30-50): skip ids without a dot; otherwise take
the parent candidate (before the last dot) and, when that parent id exists
in the node set, append the parent to the child's `incoming` (only if
absent) and the child to the parent's `outgoing` (only if absent). -/
def hierarchyStep (nodes : List (String × CNode)) (req_id : String) :
    List (String × CNode) :=
  if '.' ∈ req_id.data then
    if (rsplitDot req_id).1 ∈ nodes.map Prod.fst then
      updateVal
        (updateVal nodes req_id (fun n =>
          if (rsplitDot req_id).1 ∈ n.incoming then n
          else { n with incoming := n.incoming ++ [(rsplitDot req_id).1] }))
        (rsplitDot req_id).1
        (fun n =>
          if req_id ∈ n.outgoing then n
          else { n with outgoing := n.outgoing ++ [req_id] })
    else nodes
  else nodes

/-- `extract_hierarchy_from_ids` (extract_hierarchy.py lines 30-50): the
loop `for req_id in nodes.keys()` over the unchanged key list, mutating
values in place.  The printed `relationships_added` counter is elided. -/
def extract_hierarchy_from_ids (nodes : List (String × CNode)) : List (String × CNode) :=
  (nodes.map Prod.fst).foldl hierarchyStep nodes

theorem hierarchyStep_map_fst (m : List (String × CNode)) (rid : String) :
    (hierarchyStep m rid).map Prod.fst = m.map Prod.fst := by
  unfold hierarchyStep
  split_ifs <;> simp [updateVal_map_fst]

theorem foldl_hierarchyStep_map_fst (l : List String) (m : List (String × CNode)) :
    (l.foldl hierarchyStep m).map Prod.fst = m.map Prod.fst := by
  induction l generalizing m with
  | nil => rfl
  | cons hd tl ih => rw [List.foldl_cons, ih, hierarchyStep_map_fst]

/-- Membership of `x` in the `acc`-field list of the node stored at `id`. -/
def fieldHas (acc : CNode → List String) (m : List (String × CNode)) (id x : String) :
    Prop :=
  ∃ n, alookup m id = some n ∧ x ∈ acc n

theorem fieldHas_updateVal_iff (acc : CNode → List String) (m : List (String × CNode))
    (k : String) (f : CNode → CNode) (hf : ∀ n, acc (f n) = acc n) (id x : String) :
    fieldHas acc (updateVal m k f) id x ↔ fieldHas acc m id x := by
  unfold fieldHas
  rw [alookup_updateVal]
  by_cases hk : k = id
  · rw [if_pos hk]
    cases h : alookup m id with
    | none => simp
    | some n => simp [hf n]
  · rw [if_neg hk]

theorem fieldHas_updateVal_mono (acc : CNode → List String) (m : List (String × CNode))
    (k : String) (f : CNode → CNode) (hf : ∀ n, acc n ⊆ acc (f n)) (id x : String)
    (h : fieldHas acc m id x) : fieldHas acc (updateVal m k f) id x := by
  obtain ⟨n, hn, hx⟩ := h
  unfold fieldHas
  rw [alookup_updateVal]
  by_cases hk : k = id
  · rw [if_pos hk, hn]
    exact ⟨f n, rfl, hf n hx⟩
  · rw [if_neg hk]
    exact ⟨n, hn, hx⟩

theorem fieldHas_updateVal_self (acc : CNode → List String) (m : List (String × CNode))
    (k : String) (f : CNode → CNode) (x : String) (hk : k ∈ m.map Prod.fst)
    (hf : ∀ n, x ∈ acc (f n)) : fieldHas acc (updateVal m k f) k x := by
  obtain ⟨n, hn⟩ := alookup_isSome m k hk
  unfold fieldHas
  rw [alookup_updateVal, if_pos rfl, hn]
  exact ⟨f n, rfl, hf n⟩

/-- The two edges the loop body adds for a child id are present: the
parent in the child's `incoming`, the child in the parent's `outgoing`
(when the child has a dot and the parent id is a key). -/
def hierEstablished (m : List (String × CNode)) (rid : String) : Prop :=
  '.' ∈ rid.data → (rsplitDot rid).1 ∈ m.map Prod.fst →
    fieldHas CNode.incoming m rid (rsplitDot rid).1 ∧
    fieldHas CNode.outgoing m (rsplitDot rid).1 rid

theorem hierarchyStep_establishes (m : List (String × CNode)) (rid : String)
    (hrid : rid ∈ m.map Prod.fst) : hierEstablished (hierarchyStep m rid) rid := by
  intro hdot hparent
  rw [hierarchyStep_map_fst] at hparent
  unfold hierarchyStep
  rw [if_pos hdot, if_pos hparent]
  constructor
  · rw [fieldHas_updateVal_iff CNode.incoming _ _ _
      (fun n => by by_cases h : rid ∈ n.outgoing <;> simp [h])]
    apply fieldHas_updateVal_self
    · exact hrid
    · intro n
      by_cases h : (rsplitDot rid).1 ∈ n.incoming <;> simp [h]
  · apply fieldHas_updateVal_self
    · rw [updateVal_map_fst]
      exact hparent
    · intro n
      by_cases h : rid ∈ n.outgoing <;> simp [h]

theorem hierarchyStep_preserves_incoming (m : List (String × CNode)) (rid id x : String)
    (h : fieldHas CNode.incoming m id x) :
    fieldHas CNode.incoming (hierarchyStep m rid) id x := by
  unfold hierarchyStep
  split_ifs
  · apply fieldHas_updateVal_mono CNode.incoming _ _ _
      (fun n => by by_cases hh : rid ∈ n.outgoing <;> simp [hh])
    apply fieldHas_updateVal_mono CNode.incoming _ _ _
      (fun n => by
        by_cases hh : (rsplitDot rid).1 ∈ n.incoming
        · simp [hh]
        · simp only [if_neg hh]
          exact fun a ha => List.mem_append_left _ ha)
    exact h
  · exact h
  · exact h

theorem hierarchyStep_preserves_outgoing (m : List (String × CNode)) (rid id x : String)
    (h : fieldHas CNode.outgoing m id x) :
    fieldHas CNode.outgoing (hierarchyStep m rid) id x := by
  unfold hierarchyStep
  split_ifs
  · apply fieldHas_updateVal_mono CNode.outgoing _ _ _
      (fun n => by
        by_cases hh : rid ∈ n.outgoing
        · simp [hh]
        · simp only [if_neg hh]
          exact fun a ha => List.mem_append_left _ ha)
    apply fieldHas_updateVal_mono CNode.outgoing _ _ _
      (fun n => by by_cases hh : (rsplitDot rid).1 ∈ n.incoming <;> simp [hh])
    exact h
  · exact h
  · exact h

theorem hierarchyStep_preserves_established (m : List (String × CNode)) (rid rid' : String)
    (h : hierEstablished m rid') : hierEstablished (hierarchyStep m rid) rid' := by
  intro hdot hparent
  rw [hierarchyStep_map_fst] at hparent
  obtain ⟨hin, hout⟩ := h hdot hparent
  exact ⟨hierarchyStep_preserves_incoming m rid rid' _ hin,
    hierarchyStep_preserves_outgoing m rid _ rid' hout⟩

theorem foldl_hierarchyStep_preserves_established (l : List String)
    (m : List (String × CNode)) (rid : String) (h : hierEstablished m rid) :
    hierEstablished (l.foldl hierarchyStep m) rid := by
  induction l generalizing m with
  | nil => exact h
  | cons hd tl ih =>
    rw [List.foldl_cons]
    exact ih _ (hierarchyStep_preserves_established m hd rid h)

theorem foldl_hierarchyStep_establishes (l : List String) (m : List (String × CNode))
    (hmem : ∀ rid ∈ l, rid ∈ m.map Prod.fst) :
    ∀ rid ∈ l, hierEstablished (l.foldl hierarchyStep m) rid := by
  induction l generalizing m with
  | nil => intro rid h; simp at h
  | cons hd tl ih =>
    intro rid hr
    rw [List.foldl_cons]
    rcases List.mem_cons.mp hr with h | h
    · subst h
      exact foldl_hierarchyStep_preserves_established tl _ rid
        (hierarchyStep_establishes m rid (hmem rid (List.mem_cons_self _ _)))
    · apply ih
      · intro r hrr
        rw [hierarchyStep_map_fst]
        exact hmem r (List.mem_cons_of_mem _ hrr)
      · exact h

theorem hierarchyStep_id (m : List (String × CNode)) (rid : String)
    (h : hierEstablished m rid) : hierarchyStep m rid = m := by
  unfold hierarchyStep
  split_ifs with hdot hparent
  · obtain ⟨hin, hout⟩ := h hdot hparent
    obtain ⟨n, hn, hx⟩ := hin
    have h1 : updateVal m rid (fun n =>
        if (rsplitDot rid).1 ∈ n.incoming then n
        else { n with incoming := n.incoming ++ [(rsplitDot rid).1] }) = m := by
      apply updateVal_id
      intro v hv
      rw [hn] at hv
      injection hv with hv
      subst hv
      rw [if_pos hx]
    rw [h1]
    obtain ⟨n', hn', hx'⟩ := hout
    apply updateVal_id
    intro v hv
    rw [hn'] at hv
    injection hv with hv
    subst hv
    rw [if_pos hx']
  · rfl
  · rfl

theorem foldl_hierarchyStep_id (l : List String) (m : List (String × CNode))
    (h : ∀ rid ∈ l, hierEstablished m rid) : l.foldl hierarchyStep m = m := by
  induction l with
  | nil => rfl
  | cons hd tl ih =>
    rw [List.foldl_cons, hierarchyStep_id m hd (h hd (List.mem_cons_self _ _))]
    exact ih (fun rid hr => h rid (List.mem_cons_of_mem _ hr))

theorem extract_hierarchy_idempotent (nodes : List (String × CNode)) :
    extract_hierarchy_from_ids (extract_hierarchy_from_ids nodes) =
      extract_hierarchy_from_ids nodes := by
  unfold extract_hierarchy_from_ids
  rw [foldl_hierarchyStep_map_fst]
  apply foldl_hierarchyStep_id
  intro rid hr
  exact foldl_hierarchyStep_establishes (nodes.map Prod.fst) nodes (fun r hrr => hrr) rid hr

theorem hierarchyStep_dotless_incoming (m : List (String × CNode)) (rid id : String)
    (hid : '.' ∉ id.data) :
    (alookup (hierarchyStep m rid) id).map CNode.incoming =
      (alookup m id).map CNode.incoming := by
  unfold hierarchyStep
  split_ifs with hdot hparent
  · have hne : ¬ rid = id := fun he => hid (he ▸ hdot)
    rw [alookup_updateVal, alookup_updateVal, if_neg hne]
    by_cases hp : (rsplitDot rid).1 = id
    · rw [if_pos hp]
      cases h : alookup m id with
      | none => rfl
      | some n =>
        by_cases hh : rid ∈ n.outgoing <;> simp [hh]
    · rw [if_neg hp]
  · rfl
  · rfl

theorem extract_hierarchy_dotless_incoming (nodes : List (String × CNode)) (id : String)
    (hid : '.' ∉ id.data) :
    (alookup (extract_hierarchy_from_ids nodes) id).map CNode.incoming =
      (alookup nodes id).map CNode.incoming := by
  unfold extract_hierarchy_from_ids
  generalize nodes.map Prod.fst = l
  induction l generalizing nodes with
  | nil => rfl
  | cons hd tl ih =>
    rw [List.foldl_cons]
    rw [ih (hierarchyStep nodes hd), hierarchyStep_dotless_incoming nodes hd id hid]

/-- The spec's hierarchy example: ids A, A.1, A.1.2 with no prior edges. -/
def hierarchyExampleNodes : List (String × CNode) :=
  [("A", {}), ("A.1", {}), ("A.1.2", {})]

/-- C6: hierarchy inference (extract_hierarchy.py lines 30-50).  On the node
set {A, A.1, A.1.2}: A.1's incoming gains A, A.1.2's incoming gains A.1, and
A's incoming stays unchanged; in general an id without a dot is skipped by
the loop, so its incoming list is never touched; and the operation is
idempotent — applying it to its own output changes nothing, because both
edge insertions are guarded by membership ("add only if absent"), so no
duplicate incoming or outgoing entries are ever added. -/
theorem extract_hierarchy_inference (nodes : List (String × CNode)) (id : String)
    (hid : '.' ∉ id.data) :
    ((alookup (extract_hierarchy_from_ids hierarchyExampleNodes) "A.1").map CNode.incoming =
      some ["A"]) ∧
    ((alookup (extract_hierarchy_from_ids hierarchyExampleNodes) "A.1.2").map CNode.incoming =
      some ["A.1"]) ∧
    ((alookup (extract_hierarchy_from_ids hierarchyExampleNodes) "A").map CNode.incoming =
      some []) ∧
    ((alookup (extract_hierarchy_from_ids nodes) id).map CNode.incoming =
      (alookup nodes id).map CNode.incoming) ∧
    (extract_hierarchy_from_ids (extract_hierarchy_from_ids nodes) =
      extract_hierarchy_from_ids nodes) :=
  ⟨by decide, by decide, by decide,
    extract_hierarchy_dotless_incoming nodes id hid,
    extract_hierarchy_idempotent nodes⟩

theorem extract_hierarchy_inference_witness :
    extract_hierarchy_from_ids (extract_hierarchy_from_ids hierarchyExampleNodes) =
      extract_hierarchy_from_ids hierarchyExampleNodes :=
  (extract_hierarchy_inference hierarchyExampleNodes "A" (by decide)).2.2.2.2

/-! ## `cameo_integration/batch_cameo_processor.py`

`merge_all_requirements` (lines 131-153) folds the per-file exported node
maps into one dict: for each file in order, each `(req_id, req_data)` gets
`req_data["source_file"] = file_stem` and is written into `merged["nodes"]`
by plain dict assignment.  The batch summary written by `_save_summary`
(lines 101-106) is the `self.summary` dict fixed at lines 23-29 — fields
`total_files`, `successful`, `failed`, `total_requirements` and the
per-file `files` entries — and `merge_all_requirements` never reads or
writes it. -/

/-- One per-file entry of `summary["files"]` (lines 51-56 / 61-65). -/
structure FileSummary where
  filename : String
  status : String
  requirements : Nat := 0
  output_file : String := ""
  error : String := ""
deriving DecidableEq

/-- The batch summary dict (lines 23-29): it has no field in which a node-id
collision could be recorded. -/
structure BatchSummary where
  total_files : Nat
  successful : Nat
  failed : Nat
  total_requirements : Nat
  files : List FileSummary
deriving DecidableEq

/-- `req_data["source_file"] = file_stem` on a JSON object node (modelled by
its entry list). -/
def setSourceFile (req_data : List (String × Json)) (file_stem : String) :
    List (String × Json) :=
  dictSet req_data "source_file" (Json.str file_stem)

/-- The inner loop of `merge_all_requirements` for one file:
`merged["nodes"][req_id] = req_data` for every node of that file. -/
def mergeFileStep (merged : List (String × List (String × Json)))
    (fr : String × List (String × List (String × Json))) :
    List (String × List (String × Json)) :=
  fr.2.foldl (fun m p => dictSet m p.1 (setSourceFile p.2 fr.1)) merged

/-- `merge_all_requirements` (batch_cameo_processor.py lines 131-153): the
merged `nodes` map over the files in processing order, starting empty. -/
def merge_all_requirements
    (files : List (String × List (String × List (String × Json)))) :
    List (String × List (String × Json)) :=
  files.foldl mergeFileStep []

theorem mergeFileStep_not_mem (m : List (String × List (String × Json)))
    (stem : String) (nodes : List (String × List (String × Json))) (rid : String)
    (h : rid ∉ nodes.map Prod.fst) :
    alookup (mergeFileStep m (stem, nodes)) rid = alookup m rid := by
  unfold mergeFileStep
  induction nodes generalizing m with
  | nil => rfl
  | cons hd tl ih =>
    obtain ⟨a, b⟩ := hd
    simp only [List.map_cons, List.mem_cons] at h
    push_neg at h
    rw [List.foldl_cons, ih _ h.2, alookup_dictSet]
    exact if_neg (fun he => h.1 he.symm)

theorem merge_fold_not_mem (fs : List (String × List (String × List (String × Json))))
    (m : List (String × List (String × Json))) (rid : String)
    (h : ∀ fr ∈ fs, rid ∉ fr.2.map Prod.fst) :
    alookup (fs.foldl mergeFileStep m) rid = alookup m rid := by
  induction fs generalizing m with
  | nil => rfl
  | cons hd tl ih =>
    obtain ⟨stem, nodes⟩ := hd
    rw [List.foldl_cons, ih _ (fun fr hfr => h fr (List.mem_cons_of_mem _ hfr)),
      mergeFileStep_not_mem m stem nodes rid (h (stem, nodes) (List.mem_cons_self _ _))]

theorem mergeFileStep_mem (m : List (String × List (String × Json)))
    (stem : String) (nodes : List (String × List (String × Json))) (rid : String)
    (d : List (String × Json)) (hmem : (rid, d) ∈ nodes)
    (hnd : (nodes.map Prod.fst).Nodup) :
    alookup (mergeFileStep m (stem, nodes)) rid = some (setSourceFile d stem) := by
  unfold mergeFileStep
  induction nodes generalizing m with
  | nil => simp at hmem
  | cons hd tl ih =>
    obtain ⟨a, b⟩ := hd
    rw [List.map_cons] at hnd
    have hnd' := List.nodup_cons.mp hnd
    rw [List.foldl_cons]
    rcases List.mem_cons.mp hmem with h | h
    · injection h with h1 h2
      subst h1; subst h2
      have hnot : rid ∉ tl.map Prod.fst := hnd'.1
      have := mergeFileStep_not_mem (dictSet m rid (setSourceFile d stem)) stem tl rid hnot
      unfold mergeFileStep at this
      rw [this, alookup_dictSet, if_pos rfl]
    · exact ih _ h hnd'.2

/-- C5 amended: in a batch merge, whenever two input files produce the same
node id, the later file's content (with its `source_file` stamp) wins in the
merged nodes map — here stated for the last file carrying the id — but no
collision is recorded anywhere: the batch summary has no collision field and
`merge_all_requirements` emits only the merged nodes document, so the
earlier content is dropped without a trace. -/
theorem merge_last_write_wins
    (fs1 fs2 : List (String × List (String × List (String × Json))))
    (stem : String) (nodes : List (String × List (String × Json)))
    (rid : String) (d : List (String × Json))
    (hmem : (rid, d) ∈ nodes) (hnd : (nodes.map Prod.fst).Nodup)
    (hafter : ∀ fr ∈ fs2, rid ∉ fr.2.map Prod.fst) :
    alookup (merge_all_requirements (fs1 ++ (stem, nodes) :: fs2)) rid =
      some (setSourceFile d stem) := by
  unfold merge_all_requirements
  rw [List.foldl_append, List.foldl_cons, merge_fold_not_mem fs2 _ rid hafter,
    mergeFileStep_mem _ stem nodes rid d hmem hnd]

theorem merge_last_write_wins_witness :
    alookup (merge_all_requirements
      [("f1", [("R1", [("name", Json.str "old")])]),
       ("f2", [("R1", [("name", Json.str "new")])])]) "R1" =
      some (setSourceFile [("name", Json.str "new")] "f2") :=
  merge_last_write_wins [("f1", [("R1", [("name", Json.str "old")])])] []
    "f2" [("R1", [("name", Json.str "new")])] "R1" [("name", Json.str "new")]
    (List.mem_singleton.mpr rfl) (by decide) (fun fr hfr => absurd hfr (List.not_mem_nil fr))

/-- C5 counterexample: two files colliding on id R1 with differing content.
The later file's content wins, and the entire merge output is identical to
the output of a batch in which the earlier colliding node never existed —
the collision is silently dropped without any trace, nothing is recorded in
the batch summary (whose fields, `BatchSummary`, carry only per-file
success/failure and counts), contradicting the claim that the occurrence is
recorded as a collision. -/
theorem merge_collision_unrecorded :
    merge_all_requirements
        [("f1", [("R1", [("name", Json.str "old")])]),
         ("f2", [("R1", [("name", Json.str "new")])])] =
      merge_all_requirements [("f1", []), ("f2", [("R1", [("name", Json.str "new")])])] ∧
    merge_all_requirements
        [("f1", [("R1", [("name", Json.str "old")])]),
         ("f2", [("R1", [("name", Json.str "new")])])] =
      [("R1", [("name", Json.str "new"), ("source_file", Json.str "f2")])] :=
  ⟨rfl, rfl⟩

/-! ## `cameo_integration/cameo_analyzer.py`

A parsed XMI tree (`xml.etree.ElementTree`): tag, attribute map, text
content, children.  `root.iter()` is the preorder traversal including the
root; `findall(".//tag")` searches strict descendants. -/

inductive XElem where
  | mk (tag : String) (attrs : List (String × String)) (text : Option String)
      (children : List XElem)

def XElem.tag : XElem → String
  | .mk t _ _ _ => t

def XElem.attrs : XElem → List (String × String)
  | .mk _ a _ _ => a

def XElem.text : XElem → Option String
  | .mk _ _ tx _ => tx

def XElem.children : XElem → List XElem
  | .mk _ _ _ cs => cs

/-- `elem.get(name)` (`None` when absent). -/
def XElem.get? (e : XElem) (attr : String) : Option String :=
  alookup e.attrs attr

/-- `elem.get(name, default)`. -/
def XElem.getD (e : XElem) (attr default : String) : String :=
  (alookup e.attrs attr).getD default

mutual

/-- Strict descendants in document (preorder) order: `findall(".//...")`. -/
def descendantsOf : XElem → List XElem
  | .mk _ _ _ cs => descendantsList cs

def descendantsList : List XElem → List XElem
  | [] => []
  | c :: cs => c :: descendantsOf c ++ descendantsList cs

end

/-- `root.iter()`: the root followed by every descendant, preorder. -/
def allElems (root : XElem) : List XElem :=
  root :: descendantsOf root

/-- Python's substring test `needle in hay`. -/
def containsSub (hay needle : String) : Bool :=
  (List.range (hay.data.length + 1)).any fun i => needle.data.isPrefixOf (hay.data.drop i)

/-- Python truthiness of an optional string: `None` and `""` are falsy. -/
def getTruthy : Option String → Option String
  | none => none
  | some s => if s = "" then none else some s

/-- The first truthy value of a Python `a or b or c` chain over
`elem.get(...)` results (`None` when none is truthy, which the callers'
`if x:` guards then reject). -/
def firstTruthy : List (Option String) → Option String
  | [] => none
  | o :: rest =>
    match getTruthy o with
    | some s => some s
    | none => firstTruthy rest

def xmiTypeAttr : String := "\x7bhttp://www.omg.org/spec/XMI/20131001\x7dtype"

def xmiIdAttr : String := "\x7bhttp://www.omg.org/spec/XMI/20131001\x7did"

def umlBaseClassAttr : String := "\x7bhttp://www.omg.org/spec/UML/20131001\x7dbase_Class"

def umlNS : String := "\x7bhttp://www.omg.org/spec/UML/20131001\x7d"

/-- ASCII lower-casing of one character (`str.lower()` on the ASCII range
these models use). -/
def charLower (c : Char) : Char :=
  if 65 ≤ c.toNat ∧ c.toNat ≤ 90 then Char.ofNat (c.toNat + 32) else c

/-- ASCII upper-casing of one character (`str.upper()`). -/
def charUpper (c : Char) : Char :=
  if 97 ≤ c.toNat ∧ c.toNat ≤ 122 then Char.ofNat (c.toNat - 32) else c

def pyLower (s : String) : String :=
  String.mk (s.data.map charLower)

def pyUpper (s : String) : String :=
  String.mk (s.data.map charUpper)

/-- Python `str.strip()`: whitespace removed from both ends. -/
def pyStrip (s : String) : String :=
  String.mk (((s.data.dropWhile Char.isWhitespace).reverse.dropWhile
    Char.isWhitespace).reverse)

/-- Python `str.replace(' ', '')`: every space removed. -/
def pyRemoveSpaces (s : String) : String :=
  String.mk (s.data.filter fun c => c ≠ ' ')

/-- Python `str.startswith` for a one-character pattern. -/
def startsWithChar (s : String) (c : Char) : Bool :=
  match s.data with
  | x :: _ => x = c
  | [] => false

/-- One value of the analyzer's `self.elements` dict: the stereotype-level
extras seeded by `_collect_stereotype_applications` plus the per-element
data written by `_collect_all_elements`. -/
structure ElemInfo where
  stereotype_id : Option String := none
  stereotype_text : Option String := none
  source_file : Option String := none
  name : Option String := none
  type : Option String := none
  element : Option XElem := none

/-- `self.elements.setdefault(k, {})` as the analyzer writes it:
`if k not in self.elements: self.elements[k] = {}`. -/
def ensureKey (elems : List (String × ElemInfo)) (k : String) : List (String × ElemInfo) :=
  if k ∈ elems.map Prod.fst then elems
  else elems ++ [(k, ⟨none, none, none, none, none, none⟩)]

/-- The declared type: `elem.get('{XMI}type', elem.get('xmi:type', ''))`. -/
def declaredType (e : XElem) : String :=
  e.getD xmiTypeAttr (e.getD "xmi:type" "")

/-- One iteration of `_collect_stereotype_applications` (cameo_analyzer.py
lines 114-140) over `root.iter()`: when `'Requirement' in tag or
'Requirement' in xmi_type` and a truthy base reference exists
(`base_Class or base_Element or '{uml}base_Class'`), record
`stereotype_applications[base] = 'Requirement'` and stash any truthy
stereotype-level id/text/source into `self.elements[base]`. -/
def stereoStep (st : List (String × String) × List (String × ElemInfo)) (e : XElem) :
    List (String × String) × List (String × ElemInfo) :=
  if containsSub e.tag "Requirement" || containsSub (declaredType e) "Requirement" then
    match firstTruthy [e.get? "base_Class", e.get? "base_Element", e.get? umlBaseClassAttr] with
    | some base_class =>
      let apps := dictSet st.1 base_class "Requirement"
      let elems0 := ensureKey st.2 base_class
      let elems1 :=
        match getTruthy ((e.get? "id") <|> e.get? "Id") with
        | some v => updateVal elems0 base_class (fun i => { i with stereotype_id := some v })
        | none => elems0
      let elems2 :=
        match getTruthy ((e.get? "text") <|> e.get? "Text") with
        | some v => updateVal elems1 base_class (fun i => { i with stereotype_text := some v })
        | none => elems1
      let elems3 :=
        match getTruthy (some (e.getD "source" "Unknown")) with
        | some v => updateVal elems2 base_class (fun i => { i with source_file := some v })
        | none => elems2
      (apps, elems3)
    | none => st
  else st

/-- `_collect_stereotype_applications` (cameo_analyzer.py lines 114-140):
the stereotype index and the seeded `self.elements`. -/
def collectStereotypeApplications (root : XElem) :
    List (String × String) × List (String × ElemInfo) :=
  (allElems root).foldl stereoStep ([], [])

/-- One iteration of `_collect_all_elements` (cameo_analyzer.py lines
142-162): for an element with a truthy identity attribute, update its
entry with name, declared type, the element itself and the source. -/
def collectAllStep (elems : List (String × ElemInfo)) (e : XElem) :
    List (String × ElemInfo) :=
  match getTruthy ((e.get? xmiIdAttr) <|> e.get? "xmi:id") with
  | some xmi_id =>
    updateVal (ensureKey elems xmi_id) xmi_id (fun i =>
      { i with name := some (e.getD "name" ""), type := some (declaredType e),
               element := some e, source_file := some (e.getD "source" "Unknown") })
  | none => elems

/-- `_collect_all_elements` (cameo_analyzer.py lines 142-162), updating the
dict seeded by the stereotype pass. -/
def collectAllElements (root : XElem) (elems0 : List (String × ElemInfo)) :
    List (String × ElemInfo) :=
  (allElems root).foldl collectAllStep elems0

/-- `_is_valid_requirement_name` (cameo_analyzer.py lines 186-198). -/
def isValidRequirementName (name : String) : Bool :=
  if name = "" || name = "Unnamed Requirement" then false
  else if (pyStrip name).length ≤ 2 then false
  else if (pyStrip name) ≠ "" && (pyStrip name).data.all Char.isDigit then false
  else if (pyStrip name) ∈ ["+", "-", "*", "/", "=", ".", ","] then false
  else if pyRemoveSpaces (pyStrip name) ≠ "" &&
    (pyRemoveSpaces (pyStrip name)).data.all Char.isDigit then false
  else true

/-- The first *present* attribute of a list (`for attr in [...]: if attr in
elem.attrib: return elem.attrib[attr]`) — present even when empty. -/
def firstAttrOf (e : XElem) : List String → Option String
  | [] => none
  | a :: rest =>
    match e.get? a with
    | some v => some v
    | none => firstAttrOf e rest

/-- First descendant `ownedComment` (of the given tag) whose `body` is
truthy. -/
def firstCommentBody (e : XElem) (tagName : String) : Option String :=
  ((descendantsOf e).filter (fun c => c.tag = tagName)).findSome? fun c =>
    getTruthy (c.get? "body")

/-- `_extract_requirement_text` (cameo_analyzer.py lines 232-242). -/
def extractRequirementText (e : XElem) : String :=
  match firstAttrOf e ["text", "body", "specification", "Text"] with
  | some v => v
  | none =>
    match firstCommentBody e (umlNS ++ "ownedComment") with
    | some b => b
    | none =>
      match firstCommentBody e "ownedComment" with
      | some b => b
      | none => "No text specified"

/-- `_extract_requirement_id` (cameo_analyzer.py lines 244-254). -/
def extractRequirementIdFrom (e : XElem) (xmi_id name : String) : String :=
  match firstAttrOf e ["id", "Id", "identifier", "ID"] with
  | some v => v
  | none =>
    if containsSub (pyUpper name) "REQ" || containsSub (pyUpper name) "R-" then name
    else
      let clean_name :=
        String.mk (name.data.filter fun c => c.isAlphanum || c = '-' || c = '_')
      if clean_name ≠ "" then "REQ-" ++ clean_name
      else "REQ-" ++ String.mk (xmi_id.data.drop (xmi_id.data.length - 8))

/-- `_determine_requirement_type` (cameo_analyzer.py lines 256-276). -/
def determineRequirementType (e : XElem) (name : String) : String :=
  match getTruthy (some (e.getD "type" (e.getD "requirementType" ""))) with
  | some t => t
  | none =>
    if containsSub (pyLower name) "functional" then "Functional"
    else if containsSub (pyLower name) "performance" ||
      containsSub (pyLower name) "non-functional" then "Performance"
    else if containsSub (pyLower name) "interface" then "Interface"
    else if containsSub (pyLower name) "design" then "Design"
    else if containsSub (pyLower name) "test" then "Test"
    else if containsSub (pyLower name) "system" then "System"
    else if containsSub (pyLower name) "user" then "User"
    else "General"

/-- `_extract_properties` (cameo_analyzer.py lines 278-284). -/
def extractProperties (e : XElem) : List (String × String) :=
  e.attrs.filter fun p =>
    !(startsWithChar p.1 '\x7b') && !(["xmi:id", "xmi:type", "name"].contains p.1)

/-- The `Requirement` dataclass (cameo_analyzer.py lines 14-31). -/
structure Requirement where
  req_id : String
  name : String
  text : String
  req_type : String
  xmi_id : String
  owner_id : Option String := none
  properties : List (String × String) := []
  source_file : String := "Unknown"
  derives_from : List String := []
  refines : List String := []
  satisfies : List String := []
  verifies : List String := []
  traces_to : List String := []
deriving DecidableEq

/-- `_parse_requirement_element` (cameo_analyzer.py lines 200-230). -/
def parseRequirementElement (e : XElem) (ed : ElemInfo) : Option Requirement :=
  match getTruthy (some (e.getD xmiIdAttr (e.getD "xmi:id" ""))) with
  | none => none
  | some xmi_id =>
    let name := ed.name.getD "Unnamed Requirement"
    let text :=
      if ed.stereotype_text.getD "" = "" then extractRequirementText e
      else ed.stereotype_text.getD ""
    let req_id :=
      if ed.stereotype_id.getD "" = "" then extractRequirementIdFrom e xmi_id name
      else ed.stereotype_id.getD ""
    some
      { req_id := req_id
        name := name
        text := text
        req_type := determineRequirementType e name
        xmi_id := xmi_id
        owner_id := e.get? "owner"
        properties := extractProperties e
        source_file := ed.source_file.getD "Unknown" }

/-- `_extract_requirements` (cameo_analyzer.py lines 164-184): for every
stereotype-index entry tagged Requirement whose element is known, with a
name passing `_is_valid_requirement_name`, parse and store the requirement
under its `xmi_id`. -/
def extractStep (elems : List (String × ElemInfo))
    (requirements : List (String × Requirement)) (pr : String × String) :
    List (String × Requirement) :=
  if pr.2 = "Requirement" then
    match alookup elems pr.1 with
    | some ed =>
      match ed.element with
      | some e =>
        if isValidRequirementName (ed.name.getD "Unnamed Requirement") then
          match parseRequirementElement e ed with
          | some req => dictSet requirements req.xmi_id req
          | none => requirements
        else requirements
      | none => requirements
    | none => requirements
  else requirements

def extractRequirements (apps : List (String × String))
    (elems : List (String × ElemInfo)) : List (String × Requirement) :=
  apps.foldl (extractStep elems) []

/-- Steps 1-3 of `_parse_xmi_content` (cameo_analyzer.py lines 90-106):
collect stereotype applications, collect all elements into the same dict,
extract requirements. -/
def cameoAnalyzeRequirements (root : XElem) : List (String × Requirement) :=
  extractRequirements (collectStereotypeApplications root).1
    (collectAllElements root (collectStereotypeApplications root).2)

/-- The name-keyword half of `_determine_relationship_type`
(cameo_analyzer.py lines 329-338), reached when the stereotype lookup
settles nothing. -/
def determineByName (e : XElem) : String :=
  if containsSub (pyLower (e.getD "name" "")) "derive" then "derives"
  else if containsSub (pyLower (e.getD "name" "")) "refine" then "refines"
  else if containsSub (pyLower (e.getD "name" "")) "satisfy" then "satisfies"
  else if containsSub (pyLower (e.getD "name" "")) "verify" then "verifies"
  else "traces"

/-- `_determine_relationship_type` (cameo_analyzer.py lines 316-338): try
the stereotype index on the relationship element's own id first, then the
name keywords, defaulting to "traces". -/
def determineRelationshipType (apps : List (String × String)) (e : XElem) : String :=
  match getTruthy ((e.get? xmiIdAttr) <|> e.get? "xmi:id") with
  | some xmi_id =>
    match alookup apps xmi_id with
    | some stereoV =>
      if containsSub (pyLower stereoV) "derive" then "derives"
      else if containsSub (pyLower stereoV) "refine" then "refines"
      else if containsSub (pyLower stereoV) "satisfy" then "satisfies"
      else if containsSub (pyLower stereoV) "verify" then "verifies"
      else determineByName e
    | none => determineByName e
  | none => determineByName e

theorem stereoStep_fst_cases (st : List (String × String) × List (String × ElemInfo))
    (e : XElem) :
    (stereoStep st e).1 = st.1 ∨
      ∃ b, (stereoStep st e).1 = dictSet st.1 b "Requirement" := by
  unfold stereoStep
  by_cases h : (containsSub e.tag "Requirement" ||
      containsSub (declaredType e) "Requirement") = true
  · rw [if_pos h]
    cases hf : firstTruthy [e.get? "base_Class", e.get? "base_Element",
        e.get? umlBaseClassAttr] with
    | none => exact Or.inl rfl
    | some b => exact Or.inr ⟨b, rfl⟩
  · rw [if_neg h]
    exact Or.inl rfl

theorem collectStereo_values (l : List XElem)
    (st : List (String × String) × List (String × ElemInfo))
    (hst : ∀ b s, alookup st.1 b = some s → s = "Requirement") :
    ∀ b s, alookup (l.foldl stereoStep st).1 b = some s → s = "Requirement" := by
  induction l generalizing st with
  | nil => exact hst
  | cons e rest ih =>
    rw [List.foldl_cons]
    refine ih _ ?_
    intro b s h
    rcases stereoStep_fst_cases st e with hc | ⟨b', hc⟩
    · rw [hc] at h
      exact hst b s h
    · rw [hc, alookup_dictSet] at h
      by_cases hb : b' = b
      · rw [if_pos hb] at h
        injection h with h
        exact h.symm
      · rw [if_neg hb] at h
        exact hst b s h

theorem stereoStep_preserves_req (st : List (String × String) × List (String × ElemInfo))
    (e : XElem) (b : String) (h : alookup st.1 b = some "Requirement") :
    alookup (stereoStep st e).1 b = some "Requirement" := by
  rcases stereoStep_fst_cases st e with hc | ⟨b', hc⟩
  · rw [hc]
    exact h
  · rw [hc, alookup_dictSet]
    by_cases hb : b' = b
    · rw [if_pos hb]
    · rw [if_neg hb]
      exact h

theorem stereoFold_preserves_req (l : List XElem)
    (st : List (String × String) × List (String × ElemInfo)) (b : String)
    (h : alookup st.1 b = some "Requirement") :
    alookup (l.foldl stereoStep st).1 b = some "Requirement" := by
  induction l generalizing st with
  | nil => exact h
  | cons e rest ih =>
    rw [List.foldl_cons]
    exact ih _ (stereoStep_preserves_req st e b h)

theorem stereoStep_establishes (st : List (String × String) × List (String × ElemInfo))
    (e : XElem) (b : String)
    (hcond : (containsSub e.tag "Requirement" ||
      containsSub (declaredType e) "Requirement") = true)
    (hbase : firstTruthy [e.get? "base_Class", e.get? "base_Element",
      e.get? umlBaseClassAttr] = some b) :
    alookup (stereoStep st e).1 b = some "Requirement" := by
  unfold stereoStep
  rw [if_pos hcond, hbase]
  show alookup (dictSet st.1 b "Requirement") b = some "Requirement"
  rw [alookup_dictSet, if_pos rfl]

theorem stereoFold_establishes (l : List XElem)
    (st : List (String × String) × List (String × ElemInfo)) (e : XElem)
    (he : e ∈ l) (b : String)
    (hcond : (containsSub e.tag "Requirement" ||
      containsSub (declaredType e) "Requirement") = true)
    (hbase : firstTruthy [e.get? "base_Class", e.get? "base_Element",
      e.get? umlBaseClassAttr] = some b) :
    alookup (l.foldl stereoStep st).1 b = some "Requirement" := by
  induction l generalizing st with
  | nil => simp at he
  | cons e' rest ih =>
    rw [List.foldl_cons]
    rcases List.mem_cons.mp he with h | h
    · subst h
      exact stereoFold_preserves_req rest _ b (stereoStep_establishes st e b hcond hbase)
    · exact ih _ h

/-- C3 amended: the single traversal of `_collect_stereotype_applications`
(cameo_analyzer.py lines 114-140) matches only the keyword `Requirement` by
substring containment in the tag or declared type — not the claimed set
{Requirement, Derive, Refine, Satisfy, Verify, Trace} — and every index
entry it records carries the literal name "Requirement"; every element with
such containment and a truthy base reference is indexed.  Consequently the
stereotype branch of `_determine_relationship_type` (lines 316-338) never
settles a Derive/Refine/Satisfy/Verify kind: on an index built by this
collector it always falls through to the name-keyword classification. -/
theorem stereotype_collector_requirement_keyword_only (root : XElem) :
    (∀ b s, alookup (collectStereotypeApplications root).1 b = some s →
      s = "Requirement") ∧
    (∀ e ∈ allElems root, ∀ b,
      (containsSub e.tag "Requirement" ||
        containsSub (declaredType e) "Requirement") = true →
      firstTruthy [e.get? "base_Class", e.get? "base_Element",
        e.get? umlBaseClassAttr] = some b →
      alookup (collectStereotypeApplications root).1 b = some "Requirement") ∧
    (∀ e, determineRelationshipType (collectStereotypeApplications root).1 e =
      determineByName e) := by
  have hvals : ∀ b s, alookup (collectStereotypeApplications root).1 b = some s →
      s = "Requirement" :=
    collectStereo_values (allElems root) ([], []) (by intro b s h; simp [alookup] at h)
  refine ⟨hvals, ?_, ?_⟩
  · intro e he b hcond hbase
    exact stereoFold_establishes (allElems root) ([], []) e he b hcond hbase
  · intro e
    unfold determineRelationshipType
    cases hx : getTruthy ((e.get? xmiIdAttr) <|> e.get? "xmi:id") with
    | none => rfl
    | some xid =>
      cases ha : alookup (collectStereotypeApplications root).1 xid with
      | none => simp [ha]
      | some s =>
        have hs := hvals xid s ha
        subst hs
        have h1 : containsSub (pyLower "Requirement") "derive" = false := by decide
        have h2 : containsSub (pyLower "Requirement") "refine" = false := by decide
        have h3 : containsSub (pyLower "Requirement") "satisfy" = false := by decide
        have h4 : containsSub (pyLower "Requirement") "verify" = false := by decide
        simp [ha, h1, h2, h3, h4]

/-- C3 counterexample: a relationship element stereotyped `DeriveReqt` — its
tag contains the keyword `Derive` and it carries a base-element reference —
is not recorded in the stereotype index at all (the collector only matches
`Requirement`), so the index maps its base id to nothing rather than to the
matched keyword. -/
theorem stereotype_collector_derive_unindexed :
    containsSub "DeriveReqt" "Derive" = true ∧
    (XElem.mk "DeriveReqt" [("base_Element", "e1")] none []).get? "base_Element" =
      some "e1" ∧
    (collectStereotypeApplications
      (XElem.mk "Model" [] none
        [XElem.mk "DeriveReqt" [("base_Element", "e1")] none []])).1 = [] :=
  ⟨by decide, rfl, rfl⟩

theorem mem_dictSet {β : Type} (l : List (String × β)) (k : String) (v : β)
    (p : String × β) (h : p ∈ dictSet l k v) : p ∈ l ∨ p = (k, v) := by
  induction l with
  | nil =>
    unfold dictSet at h
    rcases List.mem_singleton.mp h with h
    exact Or.inr h
  | cons hd tl ih =>
    obtain ⟨a, b⟩ := hd
    unfold dictSet at h
    by_cases hak : a = k
    · rw [if_pos hak] at h
      rcases List.mem_cons.mp h with h | h
      · subst hak
        exact Or.inr h
      · exact Or.inl (List.mem_cons_of_mem _ h)
    · rw [if_neg hak] at h
      rcases List.mem_cons.mp h with h | h
      · exact Or.inl (h ▸ List.mem_cons_self _ _)
      · rcases ih h with h | h
        · exact Or.inl (List.mem_cons_of_mem _ h)
        · exact Or.inr h

theorem parseRequirementElement_name (e : XElem) (ed : ElemInfo) (req : Requirement)
    (h : parseRequirementElement e ed = some req) :
    req.name = ed.name.getD "Unnamed Requirement" := by
  unfold parseRequirementElement at h
  cases hx : getTruthy (some (e.getD xmiIdAttr (e.getD "xmi:id" ""))) with
  | none =>
    rw [hx] at h
    simp at h
  | some xid =>
    rw [hx] at h
    have h2 := Option.some.inj h
    rw [← h2]

theorem extractStep_valid (elems : List (String × ElemInfo))
    (acc : List (String × Requirement)) (pr : String × String)
    (hacc : ∀ p ∈ acc, isValidRequirementName p.2.name = true) :
    ∀ p ∈ extractStep elems acc pr, isValidRequirementName p.2.name = true := by
  intro p hp
  unfold extractStep at hp
  by_cases h1 : pr.2 = "Requirement"
  case neg =>
    rw [if_neg h1] at hp
    exact hacc p hp
  rw [if_pos h1] at hp
  cases h2 : alookup elems pr.1 with
  | none =>
    rw [h2] at hp
    exact hacc p hp
  | some ed =>
    rw [h2] at hp
    cases h3 : ed.element with
    | none =>
      simp only [h3] at hp
      exact hacc p hp
    | some e =>
      simp only [h3] at hp
      by_cases h4 : isValidRequirementName (ed.name.getD "Unnamed Requirement") = true
      case neg =>
        rw [if_neg h4] at hp
        exact hacc p hp
      rw [if_pos h4] at hp
      cases h5 : parseRequirementElement e ed with
      | none =>
        rw [h5] at hp
        exact hacc p hp
      | some req =>
        rw [h5] at hp
        rcases mem_dictSet acc req.xmi_id req p hp with h | h
        · exact hacc p h
        · subst h
          show isValidRequirementName req.name = true
          rw [parseRequirementElement_name e ed req h5]
          exact h4

theorem extract_fold_valid (apps : List (String × String))
    (elems : List (String × ElemInfo)) (acc : List (String × Requirement))
    (hacc : ∀ p ∈ acc, isValidRequirementName p.2.name = true) :
    ∀ p ∈ apps.foldl (extractStep elems) acc, isValidRequirementName p.2.name = true := by
  induction apps generalizing acc with
  | nil => exact hacc
  | cons pr rest ih =>
    intro p hp
    rw [List.foldl_cons] at hp
    exact ih _ (extractStep_valid elems acc pr hacc) p hp

theorem isValidRequirementName_spec (name : String)
    (h : isValidRequirementName name = true) :
    2 < (pyStrip name).length ∧
    (pyRemoveSpaces (pyStrip name) = "" ∨
      ¬((pyRemoveSpaces (pyStrip name)).data.all Char.isDigit = true)) ∧
    pyStrip name ∉ ["+", "-", "*", "/", "=", ".", ","] := by
  unfold isValidRequirementName at h
  split_ifs at h with h1 h2 h3 h4 h5
  refine ⟨Nat.lt_of_not_le h2, ?_, h4⟩
  by_cases he : pyRemoveSpaces (pyStrip name) = ""
  · exact Or.inl he
  · right
    intro hall
    exact h5 (by simp [he, hall])

/-- C9: every requirement the extractor stores passes the validity filter
(`_is_valid_requirement_name`, cameo_analyzer.py lines 186-198, applied as
the guard of `_extract_requirements`, lines 164-184): after trimming, the
name's length exceeds 2, it does not consist solely of digits once internal
spaces are removed, and it is not a lone punctuation character — so no
element with an invalid name becomes a stored Requirement. -/
theorem extracted_requirement_names_valid (root : XElem) (k : String)
    (req : Requirement) (hmem : (k, req) ∈ cameoAnalyzeRequirements root) :
    isValidRequirementName req.name = true ∧
    2 < (pyStrip req.name).length ∧
    (pyRemoveSpaces (pyStrip req.name) = "" ∨
      ¬((pyRemoveSpaces (pyStrip req.name)).data.all Char.isDigit = true)) ∧
    pyStrip req.name ∉ ["+", "-", "*", "/", "=", ".", ","] := by
  have hv : isValidRequirementName req.name = true :=
    extract_fold_valid (collectStereotypeApplications root).1
      (collectAllElements root (collectStereotypeApplications root).2) []
      (by intro p hp; simp at hp) (k, req) hmem
  obtain ⟨a, b, c⟩ := isValidRequirementName_spec req.name hv
  exact ⟨hv, a, b, c⟩

/-- A small model file: a Requirement stereotype application pointing at a
named class element. -/
def c9ExampleRoot : XElem :=
  XElem.mk "Model" [] none
    [XElem.mk "RequirementStereo"
      [("base_Class", "x1"), ("id", "REQ-001"), ("text", "Shall do X")] none [],
     XElem.mk "packagedElement"
      [("xmi:id", "x1"), ("xmi:type", "uml:Class"), ("name", "Requirement One")] none []]

theorem extracted_requirement_names_valid_witness :
    isValidRequirementName "Requirement One" = true ∧
    2 < (pyStrip "Requirement One").length ∧
    (pyRemoveSpaces (pyStrip "Requirement One") = "" ∨
      ¬((pyRemoveSpaces (pyStrip "Requirement One")).data.all Char.isDigit = true)) ∧
    pyStrip "Requirement One" ∉ ["+", "-", "*", "/", "=", ".", ","] :=
  extracted_requirement_names_valid c9ExampleRoot "x1"
    { req_id := "REQ-001", name := "Requirement One", text := "Shall do X",
      req_type := "General", xmi_id := "x1", owner_id := none, properties := [],
      source_file := "Unknown" }
    (by decide)

/-! ## `simulink_analyzer.py` — `SimulinkAnalyzer._parse_connection` -/

/-- The `Connection` dataclass (simulink_analyzer.py lines 32-40); the
`branches` field is declared but never set by `_parse_connection`. -/
structure Connection where
  source_block : String
  source_port : Nat
  dest_block : String
  dest_port : Nat
  signal_name : Option String := none
  branches : Option (List (String × Nat)) := none
deriving DecidableEq

def digitsToNat (ds : List Char) : Nat :=
  ds.foldl (fun acc c => 10 * acc + (c.toNat - 48)) 0

/-- `parse_endpoint` (simulink_analyzer.py lines 176-187):
`re.match(r'(\d+)#(out|in):(\d+)', endpoint)` then
`re.match(r'(\d+)#state', endpoint)`.  `re.match` anchors at the start
only, so trailing text after the port digits (or after `state`) is accepted
and ignored; the three `#`-suffixes are mutually exclusive prefixes, so
trying them in sequence matches the regex alternation. -/
def parseAfterHash (sid r2 : List Char) : Option (String × String × Nat) :=
  if "out:".data.isPrefixOf r2 then
    if ((r2.drop 4).takeWhile Char.isDigit).isEmpty then none
    else some (String.mk sid, "out", digitsToNat ((r2.drop 4).takeWhile Char.isDigit))
  else if "in:".data.isPrefixOf r2 then
    if ((r2.drop 3).takeWhile Char.isDigit).isEmpty then none
    else some (String.mk sid, "in", digitsToNat ((r2.drop 3).takeWhile Char.isDigit))
  else if "state".data.isPrefixOf r2 then some (String.mk sid, "state", 0)
  else none

def parseEndpointStr (s : String) : Option (String × String × Nat) :=
  if (s.data.takeWhile Char.isDigit).isEmpty then none
  else
    match s.data.dropWhile Char.isDigit with
    | c :: r2 =>
      if c = '#' then parseAfterHash (s.data.takeWhile Char.isDigit) r2 else none
    | [] => none

def parse_endpoint : Option String → Option (String × String × Nat)
  | none => none
  | some s => parseEndpointStr s

/-- `line_element.find('P[@Name="..."]')`: the first **direct child** with
tag `P` and the given `Name` attribute (the code deliberately avoids the
descendant search `.//P[...]`). -/
def findP (e : XElem) (nameVal : String) : Option XElem :=
  e.children.find? fun c => decide (c.tag = "P" ∧ c.get? "Name" = some nameVal)

/-- `_parse_connection` (simulink_analyzer.py lines 158-228): the primary
connection from the line's own direct `Dst` (when present and parseable)
plus one connection per direct `Branch` child with a parseable `Dst`, all
sharing the line's source endpoint and signal name; an unparseable source
endpoint skips the whole line, an unparseable destination skips that
connection only. -/
def parseConnection (line : XElem) : List Connection :=
  match findP line "Src" with
  | none => []
  | some src_elem =>
    match parse_endpoint src_elem.text with
    | none => []
    | some (src_sid, _src_type, src_port) =>
      let signal_name := (findP line "Name").bind XElem.text
      let primary :=
        match findP line "Dst" with
        | some dst_elem =>
          match parse_endpoint dst_elem.text with
          | some (dst_sid, _dst_type, dst_port) =>
            [{ source_block := src_sid, source_port := src_port,
               dest_block := dst_sid, dest_port := dst_port,
               signal_name := signal_name : Connection }]
          | none => []
        | none => []
      let branchConns :=
        (line.children.filter fun c => decide (c.tag = "Branch")).filterMap fun b =>
          (findP b "Dst").bind fun bd =>
            (parse_endpoint bd.text).map fun r =>
              { source_block := src_sid, source_port := src_port,
                dest_block := r.1, dest_port := r.2.2,
                signal_name := signal_name : Connection }
      primary ++ branchConns

/-- The claim's endpoint shape set, read as matching the whole string:
exactly `<sid>#out:<port>`, `<sid>#in:<port>` or `<sid>#state` with nothing
after. -/
def claimedEndpointShape (s : String) : Bool :=
  if (s.data.takeWhile Char.isDigit).isEmpty then false
  else
    match s.data.dropWhile Char.isDigit with
    | c :: r2 =>
      if c = '#' then
        if "out:".data.isPrefixOf r2 then
          decide (¬ (r2.drop 4).isEmpty) && (r2.drop 4).all Char.isDigit
        else if "in:".data.isPrefixOf r2 then
          decide (¬ (r2.drop 3).isEmpty) && (r2.drop 3).all Char.isDigit
        else decide (r2 = "state".data)
      else false
    | [] => false

/-- What `parse_endpoint` actually accepts: a string *beginning with* one of
the three endpoint shapes, with arbitrary trailing text. -/
def endpointShapePrefixed (s : String) : Prop :=
  ∃ sid port rest, sid ≠ [] ∧ sid.all Char.isDigit = true ∧
    ((port ≠ [] ∧ port.all Char.isDigit = true ∧
        (s.data = sid ++ '#' :: ("out:".data ++ port ++ rest) ∨
          s.data = sid ++ '#' :: ("in:".data ++ port ++ rest))) ∨
      s.data = sid ++ '#' :: ("state".data ++ rest))

theorem takeWhile_all_prop {p : Char → Bool} (l : List Char) :
    (l.takeWhile p).all p = true :=
  List.all_eq_true.mpr fun _ hx => List.mem_takeWhile_imp hx

theorem parseEndpointStr_shape (s : String) (r : String × String × Nat)
    (h : parseEndpointStr s = some r) : endpointShapePrefixed s := by
  unfold parseEndpointStr at h
  by_cases hsid : (s.data.takeWhile Char.isDigit).isEmpty
  · rw [if_pos hsid] at h
    simp at h
  rw [if_neg hsid] at h
  have hsplit : s.data.takeWhile Char.isDigit ++ s.data.dropWhile Char.isDigit = s.data :=
    List.takeWhile_append_dropWhile Char.isDigit s.data
  have hall : (s.data.takeWhile Char.isDigit).all Char.isDigit = true :=
    takeWhile_all_prop s.data
  have hne : s.data.takeWhile Char.isDigit ≠ [] := by
    intro he
    rw [he] at hsid
    exact hsid rfl
  cases hrest : s.data.dropWhile Char.isDigit with
  | nil =>
    rw [hrest] at h
    simp at h
  | cons c r2 =>
    rw [hrest] at h
    replace h : (if c = '#' then parseAfterHash (s.data.takeWhile Char.isDigit) r2
        else none) = some r := h
    by_cases hc : c = '#'
    case neg =>
      rw [if_neg hc] at h
      simp at h
    rw [if_pos hc] at h
    subst hc
    rw [hrest] at hsplit
    unfold parseAfterHash at h
    by_cases hout : "out:".data.isPrefixOf r2
    · rw [if_pos hout] at h
      obtain ⟨t, ht⟩ := (List.isPrefixOf_iff_prefix.mp hout)
      by_cases hpd : ((r2.drop 4).takeWhile Char.isDigit).isEmpty
      · rw [if_pos hpd] at h
        simp at h
      have hdrop : r2.drop 4 = t := by
        rw [← ht]
        exact List.drop_left "out:".data t
      refine ⟨s.data.takeWhile Char.isDigit, t.takeWhile Char.isDigit,
        t.dropWhile Char.isDigit, hne, hall, Or.inl ⟨?_, takeWhile_all_prop t, Or.inl ?_⟩⟩
      · rw [← hdrop]
        intro he
        rw [he] at hpd
        exact hpd rfl
      · rw [List.append_assoc, List.takeWhile_append_dropWhile, ht, hsplit]
    · rw [if_neg hout] at h
      by_cases hin : "in:".data.isPrefixOf r2
      · rw [if_pos hin] at h
        obtain ⟨t, ht⟩ := (List.isPrefixOf_iff_prefix.mp hin)
        by_cases hpd : ((r2.drop 3).takeWhile Char.isDigit).isEmpty
        · rw [if_pos hpd] at h
          simp at h
        have hdrop : r2.drop 3 = t := by
          rw [← ht]
          exact List.drop_left "in:".data t
        refine ⟨s.data.takeWhile Char.isDigit, t.takeWhile Char.isDigit,
          t.dropWhile Char.isDigit, hne, hall, Or.inl ⟨?_, takeWhile_all_prop t, Or.inr ?_⟩⟩
        · rw [← hdrop]
          intro he
          rw [he] at hpd
          exact hpd rfl
        · rw [List.append_assoc, List.takeWhile_append_dropWhile, ht, hsplit]
      · rw [if_neg hin] at h
        by_cases hst : "state".data.isPrefixOf r2
        · obtain ⟨t, ht⟩ := (List.isPrefixOf_iff_prefix.mp hst)
          exact ⟨s.data.takeWhile Char.isDigit, [], t, hne, hall,
            Or.inr (by rw [ht, hsplit])⟩
        · rw [if_neg hst] at h
          simp at h

/-- The spec's branch-fanout example: a line whose source is `10#out:1`,
no direct destination, and two branches to `20#in:1` and `30#in:1`. -/
def exampleBranchLine : XElem :=
  XElem.mk "Line" [] none
    [XElem.mk "P" [("Name", "Src")] (some "10#out:1") [],
     XElem.mk "Branch" [] none [XElem.mk "P" [("Name", "Dst")] (some "20#in:1") []],
     XElem.mk "Branch" [] none [XElem.mk "P" [("Name", "Dst")] (some "30#in:1") []]]

/-- C7 amended: the branch example yields exactly the two fan-out
connections from `source_block = "10"`, `source_port = 1` (destination and
name sub-elements are looked up as direct children only, so the branches'
`Dst` elements do not produce a primary connection); a line whose source
endpoint has no valid shape *prefix* is skipped without a Connection — but
`re.match` is not end-anchored, so an endpoint is accepted exactly when a
valid shape prefix exists, with trailing text ignored (`state` normalized
to port 0). -/
theorem parse_connection_branch_fanout (line se : XElem) (s : String) :
    (parseConnection exampleBranchLine =
      [{ source_block := "10", source_port := 1, dest_block := "20", dest_port := 1,
         signal_name := none },
       { source_block := "10", source_port := 1, dest_block := "30", dest_port := 1,
         signal_name := none }]) ∧
    (findP line "Src" = none → parseConnection line = []) ∧
    (findP line "Src" = some se → parse_endpoint se.text = none →
      parseConnection line = []) ∧
    (∀ r, parseEndpointStr s = some r → endpointShapePrefixed s) ∧
    parseEndpointStr "5#state" = some ("5", "state", 0) := by
  refine ⟨by decide, ?_, ?_, fun r h => parseEndpointStr_shape s r h, by decide⟩
  · intro h
    unfold parseConnection
    rw [h]
  · intro h1 h2
    unfold parseConnection
    rw [h1]
    simp only [h2]

/-- A line whose source endpoint carries trailing junk after a valid
shape prefix. -/
def trailingJunkLine : XElem :=
  XElem.mk "Line" [] none
    [XElem.mk "P" [("Name", "Src")] (some "10#out:1x") [],
     XElem.mk "P" [("Name", "Dst")] (some "20#in:1") []]

/-- C7 counterexample: the endpoint string `10#out:1x` matches none of the
shapes `<sid>#out:<port>`, `<sid>#in:<port>`, `<sid>#state` taken as whole
strings, yet the line is *not* skipped — `re.match` is not end-anchored, so
a Connection with `source_block = "10"`, `source_port = 1` is produced. -/
theorem parse_connection_trailing_junk_accepted :
    claimedEndpointShape "10#out:1x" = false ∧
    parseConnection trailingJunkLine =
      [{ source_block := "10", source_port := 1, dest_block := "20", dest_port := 1,
         signal_name := none }] :=
  ⟨by decide, by decide⟩

/-! ## `simulink_analyzer.py` — `SlxcAnalyzer` (generated-code mapping) -/

/-- The `CodeMapping` dataclass (simulink_analyzer.py lines 43-50). -/
structure CodeMapping where
  file_path : String
  line_number : Nat
  block_path : String
  block_name : String
  code_line : String
deriving DecidableEq

/-- One attempted match of `BLOCK_REF_PATTERN` = `'<([^>]+)>/([^']+)'` at
the head of the character list: quote, `<`, a nonempty run without `>`,
`>/`, a nonempty run without a quote, quote.  Returns the two groups and
the remainder after the match. -/
def tryBlockRef : List Char → Option ((String × String) × List Char)
  | '\'' :: '<' :: rest =>
    if (rest.takeWhile fun c => c ≠ '>').isEmpty then none
    else
      match rest.dropWhile fun c => c ≠ '>' with
      | '>' :: '/' :: r2 =>
        if (r2.takeWhile fun c => c ≠ '\'').isEmpty then none
        else
          match r2.dropWhile fun c => c ≠ '\'' with
          | '\'' :: r4 =>
            some ((String.mk (rest.takeWhile fun c => c ≠ '>'),
              String.mk (r2.takeWhile fun c => c ≠ '\'')), r4)
          | _ => none
      | _ => none
  | _ => none

/-- `BLOCK_REF_PATTERN.findall(line)`: scan left to right, non-overlapping,
resuming after each match; fuelled by the line length (each step consumes
at least one character). -/
def findBlockRefs : Nat → List Char → List (String × String)
  | 0, _ => []
  | _, [] => []
  | fuel + 1, c :: cs =>
    match tryBlockRef (c :: cs) with
    | some (m, rest) => m :: findBlockRefs fuel rest
    | none => findBlockRefs fuel cs

/-- Python `content.split('\n')` (always at least one piece). -/
def splitNl : List Char → List (List Char)
  | [] => [[]]
  | c :: rest =>
    if c = '\n' then [] :: splitNl rest
    else
      match splitNl rest with
      | l :: ls => (c :: l) :: ls
      | [] => [[c]]

/-- `_parse_c_file` (simulink_analyzer.py lines 371-389): for each line
(numbered from 1), every pattern match yields a `CodeMapping` with
`block_path = "<Path>/Name"`, `block_name = Name` and the stripped line
text. -/
def parseCFile (file_path content : String) : List CodeMapping :=
  (List.enumFrom 1 (splitNl content.data)).flatMap fun p =>
    (findBlockRefs p.2.length p.2).map fun m =>
      { file_path := file_path
        line_number := p.1
        block_path := "<" ++ m.1 ++ ">/" ++ m.2
        block_name := m.2
        code_line := pyStrip (String.mk p.2) }

def lookupLoc (l : List ((String × String) × List (Nat × String)))
    (k : String × String) : Option (List (Nat × String)) :=
  match l with
  | [] => none
  | (k', v) :: rest => if k' = k then some v else lookupLoc rest k

/-- `by_location.setdefault(key, []).append(ref)`: append to the key's list,
creating the key at the end on first sight. -/
def appendLoc (l : List ((String × String) × List (Nat × String)))
    (k : String × String) (r : Nat × String) :
    List ((String × String) × List (Nat × String)) :=
  match l with
  | [] => [(k, [r])]
  | (k', v) :: rest =>
    if k' = k then (k', v ++ [r]) :: rest else (k', v) :: appendLoc rest k r

/-- The grouping loop of `export_to_json` (simulink_analyzer.py lines
399-408): accumulate `{line, code}` occurrences under `(file_path,
block_path)` in scan order. -/
def byLocation (ms : List CodeMapping) :
    List ((String × String) × List (Nat × String)) :=
  ms.foldl
    (fun acc m => appendLoc acc (m.file_path, m.block_path) (m.line_number, m.code_line))
    []

/-- Python `p.split('/')[-1]`: the text after the last slash. -/
def lastSegment (p : String) : String :=
  String.mk ((p.data.reverse.takeWhile fun c => c ≠ '/').reverse)

/-- One exported mapping entry (simulink_analyzer.py lines 410-419). -/
structure MappingEntry where
  file_path : String
  block_path : String
  block_name : String
  location : String
  code_references : List (Nat × String)
deriving DecidableEq

/-- The `mappings` list of `SlxcAnalyzer.export_to_json` (simulink_analyzer.py
lines 391-419). -/
def exportMappings (ms : List CodeMapping) : List MappingEntry :=
  (byLocation ms).map fun kv =>
    { file_path := kv.1.1
      block_path := kv.1.2
      block_name := lastSegment kv.1.2
      location := kv.1.1 ++ ":" ++ kv.1.2
      code_references := kv.2 }

/-- All `{line, code}` occurrences of a key, in scan order. -/
def refsOf (ms : List CodeMapping) (k : String × String) : List (Nat × String) :=
  ms.filterMap fun m =>
    if (m.file_path, m.block_path) = k then some (m.line_number, m.code_line) else none

theorem lookupLoc_appendLoc (l : List ((String × String) × List (Nat × String)))
    (k k' : String × String) (r : Nat × String) :
    lookupLoc (appendLoc l k r) k' =
      if k = k' then some ((lookupLoc l k').getD [] ++ [r]) else lookupLoc l k' := by
  induction l with
  | nil =>
    by_cases h : k = k' <;> simp [appendLoc, lookupLoc, h]
  | cons hd tl ih =>
    obtain ⟨a, b⟩ := hd
    by_cases hak : a = k
    · subst hak
      by_cases h : a = k' <;> simp [appendLoc, lookupLoc, h]
    · by_cases h : a = k'
      · subst h
        have hne : ¬ k = a := fun he => hak he.symm
        simp [appendLoc, lookupLoc, hak, hne]
      · simp [appendLoc, lookupLoc, hak, h, ih]

theorem byLocation_fold_getD (ms : List CodeMapping)
    (acc : List ((String × String) × List (Nat × String))) (k : String × String) :
    (lookupLoc (ms.foldl
      (fun acc m => appendLoc acc (m.file_path, m.block_path) (m.line_number, m.code_line))
      acc) k).getD [] =
      (lookupLoc acc k).getD [] ++ refsOf ms k := by
  induction ms generalizing acc with
  | nil => simp [refsOf]
  | cons m rest ih =>
    rw [List.foldl_cons, ih]
    unfold refsOf
    by_cases hk : (m.file_path, m.block_path) = k
    · rw [lookupLoc_appendLoc, if_pos hk]
      simp [List.filterMap_cons, hk, refsOf]
    · rw [lookupLoc_appendLoc, if_neg hk]
      simp [List.filterMap_cons, hk, refsOf]

theorem byLocation_fold_none (ms : List CodeMapping)
    (acc : List ((String × String) × List (Nat × String))) (k : String × String) :
    (lookupLoc (ms.foldl
      (fun acc m => appendLoc acc (m.file_path, m.block_path) (m.line_number, m.code_line))
      acc) k = none) ↔ (lookupLoc acc k = none ∧ refsOf ms k = []) := by
  induction ms generalizing acc with
  | nil => simp [refsOf]
  | cons m rest ih =>
    rw [List.foldl_cons, ih]
    unfold refsOf
    by_cases hk : (m.file_path, m.block_path) = k
    · rw [lookupLoc_appendLoc, if_pos hk]
      simp [List.filterMap_cons, hk, refsOf]
    · rw [lookupLoc_appendLoc, if_neg hk]
      simp [List.filterMap_cons, hk, refsOf]

theorem appendLoc_map_fst (l : List ((String × String) × List (Nat × String)))
    (k : String × String) (r : Nat × String) :
    (appendLoc l k r).map Prod.fst =
      if k ∈ l.map Prod.fst then l.map Prod.fst else l.map Prod.fst ++ [k] := by
  induction l with
  | nil => simp [appendLoc]
  | cons hd tl ih =>
    obtain ⟨a, b⟩ := hd
    by_cases hak : a = k
    · subst hak
      simp [appendLoc]
    · have hne : ¬ k = a := fun he => hak he.symm
      by_cases hmem : k ∈ tl.map Prod.fst <;>
        simp [appendLoc, hak, hne, hmem, ih]

theorem byLocation_fold_keys_nodup (ms : List CodeMapping)
    (acc : List ((String × String) × List (Nat × String)))
    (hacc : (acc.map Prod.fst).Nodup) :
    ((ms.foldl
      (fun acc m => appendLoc acc (m.file_path, m.block_path) (m.line_number, m.code_line))
      acc).map Prod.fst).Nodup := by
  induction ms generalizing acc with
  | nil => exact hacc
  | cons m rest ih =>
    rw [List.foldl_cons]
    apply ih
    rw [appendLoc_map_fst]
    by_cases hmem : (m.file_path, m.block_path) ∈ acc.map Prod.fst
    · rw [if_pos hmem]
      exact hacc
    · rw [if_neg hmem]
      simp [List.nodup_append, hacc, hmem]

def gainLine : String := "/* Gain: '<S1>/K' */"

/-- A C file whose line 42 is the gain comment (41 empty lines before). -/
def content42 : String := String.mk (List.replicate 41 '\n' ++ gainLine.data)

/-- C8 amended: the exported mapping document has exactly one entry per
`(file_path, block_path)` key; a key's `code_references` accumulate every
matching occurrence of the file in scan order (one `{line, code}` pair per
match, never one record per match at the entry level); and the comment
token `'<S1>/K'` at line 42 of `foo.c` yields the single entry keyed
`(foo.c, <S1>/K)` with derived `block_name` "K" and
`code_references = [{line: 42, code: the line text *stripped of
surrounding whitespace*}]` — `_parse_c_file` stores `line.strip()`, not
the verbatim line. -/
theorem code_mapper_groups_by_location (ms : List CodeMapping) (k : String × String) :
    (((exportMappings ms).map fun en => (en.file_path, en.block_path)).Nodup) ∧
    ((lookupLoc (byLocation ms) k).getD [] = refsOf ms k) ∧
    (lookupLoc (byLocation ms) k = none ↔ refsOf ms k = []) ∧
    (exportMappings (parseCFile "foo.c" content42) =
      [{ file_path := "foo.c", block_path := "<S1>/K", block_name := "K",
         location := "foo.c:<S1>/K", code_references := [(42, "/* Gain: '<S1>/K' */")] }]) := by
  refine ⟨?_, byLocation_fold_getD ms [] k, ?_, by decide⟩
  · unfold exportMappings
    rw [List.map_map]
    have hcomp : ((fun en : MappingEntry => (en.file_path, en.block_path)) ∘
        (fun kv : (String × String) × List (Nat × String) =>
          ({ file_path := kv.1.1, block_path := kv.1.2, block_name := lastSegment kv.1.2,
             location := kv.1.1 ++ ":" ++ kv.1.2, code_references := kv.2 } : MappingEntry))) =
        Prod.fst := by
      funext kv
      rfl
    rw [hcomp]
    exact byLocation_fold_keys_nodup ms [] (by simp)
  · simpa [lookupLoc] using byLocation_fold_none ms [] k

/-- C8 counterexample: an indented source line containing the token
`'<S1>/K'` — the stored `code` is `line.strip()`, which differs from the
verbatim text of the line, contradicting the claim's "code: the verbatim
text of that line". -/
theorem code_mapper_strips_line_text :
    parseCFile "foo.c" "  /* Gain: '<S1>/K' */" =
      [{ file_path := "foo.c", line_number := 1, block_path := "<S1>/K",
         block_name := "K", code_line := "/* Gain: '<S1>/K' */" }] ∧
    "/* Gain: '<S1>/K' */" ≠ "  /* Gain: '<S1>/K' */" :=
  ⟨by decide, by decide⟩
